import Mathlib

/-!
Verification of the popcore commit-graph engine.

Shallow embedding of the popcore library (`src/popcore`): the sparse-snapshot
phylogenetic population (`phylogenetic.py`), and the commit-graph population
with branches, checkout, detach and attach (`population.py` / `core.py`).

Python objects are modelled by an arena (a `List` of records); object
references become arena indices.  An object allocated later always has a
larger index than the objects it points to, so recursions that walk `parent`
and `contributors` links are embedded as fuelled recursions on the index
(the fuel `i + 1` is always sufficient for a chain that strictly descends
through indices; the out-of-range guards are never taken on arenas built by
the operations).  Python `dict`s become insertion-ordered association lists
with overwrite-in-place semantics, matching Python dict iteration order.
-/

namespace Popcore

/-! ## Phylogenetic population (`src/popcore/phylogenetic.py`)

`PNode` embeds `Player.__init__` (lines 59-73): `parent`, `contributors`,
`model_parameters` (here `params : Option Nat`, `none` = Python `None`),
`hyperparameters` (opaque, here a `Nat`), `children`.  `id_str`, `timestep`
and `generation` play no role in the sparsity logic and are omitted here
(the commit-graph model below carries them). -/

structure PNode where
  parent : Option Nat
  contributors : List Nat
  params : Option Nat
  hyper : Nat
  children : List Nat
  deriving Repr, DecidableEq

instance : Inhabited PNode := ⟨⟨none, [], none, 0, []⟩⟩

/-- The literal `99999999999999999999999` returned by
`Player.get_nbr_unsaved_ancestors` (phylogenetic.py line 154) for an
unsaved root. -/
def SENTINEL : Nat := 99999999999999999999999

/-- Fuelled body of `Player.get_nbr_unsaved_ancestors` (phylogenetic.py
lines 144-158): 0 if `model_parameters` is present, the sentinel for an
unsaved root, otherwise `1 + Σ` over `[parent] ++ contributors`.
Recursive calls descend to strictly smaller arena indices, so fuel `i + 1`
computes the true value; the `j < i` guards are never false on arenas
built by the operations. -/
def unsavedGo (arena : List PNode) : Nat → Nat → Nat
  | 0, _ => 0
  | fuel + 1, i =>
    let nd := arena.getD i default
    if nd.params.isSome then 0
    else
      match nd.parent with
      | none => SENTINEL
      | some p =>
        if p < i then
          1 + unsavedGo arena fuel p +
            (nd.contributors.map
              (fun c => if c < i then unsavedGo arena fuel c else 0)).sum
        else 0

/-- `Player.get_nbr_unsaved_ancestors` on the player at arena index `i`. -/
def unsavedCount (arena : List PNode) (i : Nat) : Nat :=
  unsavedGo arena (i + 1) i

/-- Phylogenetic `Population.__init__` state (phylogenetic.py lines
241-254): the root player, the sparsity setting, and the active node.
The `nodes` dict, `generations` index and `branches` dict only organise
access to the players and do not enter the snapshot policy; the
commit-graph model below embeds them. -/
structure PhyloPop where
  arena : List PNode
  current : Nat
  sparsity : Nat
  deriving Repr, DecidableEq

/-- `Population.__init__(sparsity)`: a single root player with no parent
and no `model_parameters`. -/
def phyloInit (sparsity : Nat) : PhyloPop :=
  { arena := [⟨none, [], none, 0, []⟩], current := 0, sparsity := sparsity }

/-- `Population.commit` (phylogenetic.py lines 306-327): create the child
via `add_child` (no `model_parameters` yet), then store the payload on it
exactly when `child.get_nbr_unsaved_ancestors() > sparsity`, and advance
the current node.  `payload = none` embeds a call with
`model_parameters=None`. -/
def phyloCommit (st : PhyloPop) (payload : Option Nat) (hyper : Nat)
    (contribs : List Nat) : PhyloPop :=
  let n := st.arena.length
  let child : PNode := ⟨some st.current, contribs, none, hyper, []⟩
  let cur := st.arena.getD st.current default
  let arena1 :=
    (st.arena.set st.current { cur with children := cur.children ++ [n] })
      ++ [child]
  let saved :=
    if unsavedCount arena1 n > st.sparsity then payload else none
  let arena2 := arena1.set n { child with params := saved }
  { st with arena := arena2, current := n }

/-- A straight-line run of `commit` calls, each passing a payload value
`v` (i.e. `model_parameters` not `None`), hyperparameters and
contributors. -/
def phyloRun (sparsity : Nat) (ops : List (Nat × Nat × List Nat)) : PhyloPop :=
  ops.foldl (fun st op => phyloCommit st (some op.1) op.2.1 op.2.2)
    (phyloInit sparsity)

end Popcore

namespace Popcore

/-- `unsavedGo` reads only the `params`, `parent` and `contributors`
fields, at indices strictly below its start index; two arenas whose
entries below `n` agree on those fields yield the same counts below
`n`. -/
theorem unsavedGo_congr {A B : List PNode} {n : Nat}
    (h : ∀ j, j < n →
      (A.getD j default).params = (B.getD j default).params ∧
      (A.getD j default).parent = (B.getD j default).parent ∧
      (A.getD j default).contributors = (B.getD j default).contributors) :
    ∀ fuel i, i < n → unsavedGo A fuel i = unsavedGo B fuel i := by
  intro fuel
  induction fuel with
  | zero => intro i _; rfl
  | succ f ih =>
    intro i hi
    obtain ⟨hp, hpar, hc⟩ := h i hi
    simp only [unsavedGo, hp, hpar, hc]
    split
    · rfl
    · split
      · rfl
      · next p hpeq =>
        split
        · next hpi =>
          rw [ih p (lt_trans hpi hi)]
          congr 1
          congr 1
          apply List.map_congr_left
          intro c _
          by_cases hci : c < i
          · rw [if_pos hci, if_pos hci, ih c (lt_trans hci hi)]
          · rw [if_neg hci, if_neg hci]
        · rfl

/-- Any fuel strictly above the index computes `unsavedCount`. -/
theorem unsavedGo_eq_unsavedCount (arena : List PNode) :
    ∀ i fuel, i < fuel → unsavedGo arena fuel i = unsavedCount arena i := by
  intro i
  induction i using Nat.strong_induction_on with
  | _ i ih =>
    intro fuel hfuel
    cases fuel with
    | zero => omega
    | succ f =>
      show unsavedGo arena (f + 1) i = unsavedGo arena (i + 1) i
      simp only [unsavedGo]
      split
      · rfl
      · split
        · rfl
        · next p hpeq =>
          split
          · next hpi =>
            have h1 : unsavedGo arena f p = unsavedCount arena p :=
              ih p hpi f (by omega)
            have h2 : unsavedGo arena i p = unsavedCount arena p := ih p hpi i hpi
            rw [h1, h2]
            congr 1
            congr 1
            apply List.map_congr_left
            intro c _
            by_cases hci : c < i
            · rw [if_pos hci, if_pos hci, ih c hci f (by omega), ih c hci i hci]
            · rw [if_neg hci, if_neg hci]
          · rfl

end Popcore

namespace Popcore

theorem getD_set_ne {α : Type} [Inhabited α] (l : List α) (k j : Nat) (x : α)
    (h : j ≠ k) : (l.set k x).getD j default = l.getD j default := by
  rw [List.getD_eq_getElem?_getD, List.getD_eq_getElem?_getD,
    List.getElem?_set_ne (Ne.symm h)]

theorem getD_set_self {α : Type} [Inhabited α] (l : List α) (k : Nat) (x : α)
    (h : k < l.length) : (l.set k x).getD k default = x := by
  rw [List.getD_eq_getElem?_getD, List.getElem?_set_self h]
  rfl

/-- The arena rewritten by `phyloCommit` (update of the children list of
the active node, then append of the fresh child) agrees with the original
arena below the original length on every field `unsavedGo` reads. -/
theorem phylo_arena_agree (A : List PNode) (k : Nat) (ch : List Nat)
    (rest : List PNode) (B : List PNode)
    (hB : B = (A.set k { A.getD k default with children := ch }) ++ rest) :
    ∀ j, j < A.length →
      (B.getD j default).params = (A.getD j default).params ∧
      (B.getD j default).parent = (A.getD j default).parent ∧
      (B.getD j default).contributors = (A.getD j default).contributors := by
  subst hB
  intro j hj
  have hlen : j < (A.set k { A.getD k default with children := ch }).length := by
    simpa using hj
  have happ :
      ((A.set k { A.getD k default with children := ch }) ++ rest).getD j default
        = (A.set k { A.getD k default with children := ch }).getD j default :=
    List.getD_append _ _ _ _ hlen
  by_cases hjk : j = k
  · subst hjk
    have hset := getD_set_self A j { A.getD j default with children := ch } hj
    rw [happ, hset]
    exact ⟨rfl, rfl, rfl⟩
  · have hset := getD_set_ne A k j { A.getD k default with children := ch } hjk
    rw [happ, hset]
    exact ⟨rfl, rfl, rfl⟩

/-- Committing never changes the unsaved-ancestor count of a
pre-existing player. -/
theorem unsavedCount_phyloCommit_old (st : PhyloPop) (payload : Option Nat)
    (hyper : Nat) (contribs : List Nat) (i : Nat) (hi : i < st.arena.length) :
    unsavedCount (phyloCommit st payload hyper contribs).arena i
      = unsavedCount st.arena i := by
  simp only [phyloCommit]
  set n := st.arena.length with hn
  set child : PNode := ⟨some st.current, contribs, none, hyper, []⟩ with hchild
  set cur := st.arena.getD st.current default with hcur
  set arena1 :=
    (st.arena.set st.current { cur with children := cur.children ++ [n] })
      ++ [child] with harena1
  have hagree1 := phylo_arena_agree st.arena st.current (cur.children ++ [n])
    [child] arena1 harena1
  set saved := if unsavedCount arena1 n > st.sparsity then payload else none
  have hagree2 : ∀ j, j < n →
      ((arena1.set n { child with params := saved }).getD j default).params
          = (st.arena.getD j default).params ∧
      ((arena1.set n { child with params := saved }).getD j default).parent
          = (st.arena.getD j default).parent ∧
      ((arena1.set n { child with params := saved }).getD j default).contributors
          = (st.arena.getD j default).contributors := by
    intro j hj
    have hne : (arena1.set n { child with params := saved }).getD j default
        = arena1.getD j default :=
      getD_set_ne arena1 n j _ (by omega)
    rw [hne]
    exact hagree1 j hj
  exact unsavedGo_congr hagree2 (i + 1) i hi

end Popcore

namespace Popcore

/-- One-step unfolding of `unsavedGo` (definitional). -/
theorem unsavedGo_succ (arena : List PNode) (fuel i : Nat) :
    unsavedGo arena (fuel + 1) i
      = (if (arena.getD i default).params.isSome then 0
         else
           match (arena.getD i default).parent with
           | none => SENTINEL
           | some p =>
             if p < i then
               1 + unsavedGo arena fuel p +
                 ((arena.getD i default).contributors.map
                   (fun c => if c < i then unsavedGo arena fuel c else 0)).sum
             else 0) := rfl

/-- The unsaved-ancestor count of the fresh child, at the moment the
snapshot decision is taken, equals `1 +` the pre-commit counts of its
parent (the active node) and of the contributors, exactly as
`get_nbr_unsaved_ancestors` computes it. -/
theorem unsavedCount_new_child (st : PhyloPop) (hyper : Nat)
    (contribs : List Nat)
    (hcur : st.current < st.arena.length)
    (hc : ∀ c ∈ contribs, c < st.arena.length) :
    unsavedCount
      ((st.arena.set st.current
          { st.arena.getD st.current default with
              children := (st.arena.getD st.current default).children
                ++ [st.arena.length] })
        ++ [⟨some st.current, contribs, none, hyper, []⟩])
      st.arena.length
      = 1 + unsavedCount st.arena st.current
          + (contribs.map (unsavedCount st.arena)).sum := by
  set n := st.arena.length with hn
  set arena1 :=
    (st.arena.set st.current
        { st.arena.getD st.current default with
            children := (st.arena.getD st.current default).children ++ [n] })
      ++ [(⟨some st.current, contribs, none, hyper, []⟩ : PNode)] with harena1
  have hagree := phylo_arena_agree st.arena st.current
    ((st.arena.getD st.current default).children ++ [n])
    [⟨some st.current, contribs, none, hyper, []⟩] arena1 harena1
  have hgetn : arena1.getD n default = ⟨some st.current, contribs, none, hyper, []⟩ := by
    rw [harena1, List.getD_append_right _ _ _ _ (by simp [hn])]
    simp [hn]
  show unsavedGo arena1 (n + 1) n = _
  rw [unsavedGo_succ, hgetn]
  simp only [Option.isSome_none, Bool.false_eq_true, if_false]
  rw [if_pos hcur]
  have h1 : unsavedGo arena1 n st.current = unsavedCount st.arena st.current := by
    rw [unsavedGo_eq_unsavedCount arena1 st.current n hcur]
    exact unsavedGo_congr hagree (st.current + 1) st.current hcur
  have h2 : contribs.map (fun c => if c < n then unsavedGo arena1 n c else 0)
      = contribs.map (unsavedCount st.arena) := by
    apply List.map_congr_left
    intro c hcm
    have hcn : c < n := hc c hcm
    rw [if_pos hcn, unsavedGo_eq_unsavedCount arena1 c n hcn]
    exact unsavedGo_congr hagree (c + 1) c hcn
  rw [h1, h2]

end Popcore

namespace Popcore

/-- C1.  Snapshot retention rule: whenever `commit` runs on a population
whose active node and contributors are live players, the payload passed to
`commit` is stored on the new node exactly when the new node’s
unsaved-ancestor count (`1 +` the counts of its parent and contributors)
is strictly greater than `sparsity`; otherwise the new node’s
`model_parameters` remain absent.  The hyperparameters are kept either
way. -/
theorem commit_retains_iff_unsaved_gt_sparsity (st : PhyloPop)
    (payload : Option Nat) (hyper : Nat) (contribs : List Nat)
    (hcur : st.current < st.arena.length)
    (hc : ∀ c ∈ contribs, c < st.arena.length) :
    ((phyloCommit st payload hyper contribs).arena.getD st.arena.length
        default).params
      = (if 1 + unsavedCount st.arena st.current
            + (contribs.map (unsavedCount st.arena)).sum > st.sparsity
         then payload else none)
    ∧ ((phyloCommit st payload hyper contribs).arena.getD st.arena.length
        default).hyper = hyper := by
  have hcnt := unsavedCount_new_child st hyper contribs hcur hc
  simp only [phyloCommit]
  rw [getD_set_self _ _ _ (by simp)]
  constructor
  · show (if _ > st.sparsity then payload else none) = _
    rw [hcnt]
  · rfl

theorem commit_retains_iff_unsaved_gt_sparsity_witness :
    (0 < (phyloInit 5).arena.length ∧ ∀ c ∈ ([] : List Nat), c < 1) ∧
    (((phyloCommit (phyloInit 5) (some 7) 3 []).arena.getD 1 default).params
        = (if 1 + unsavedCount (phyloInit 5).arena 0
              + (([] : List Nat).map (unsavedCount (phyloInit 5).arena)).sum > 5
           then some 7 else none)
      ∧ ((phyloCommit (phyloInit 5) (some 7) 3 []).arena.getD 1 default).hyper = 3) :=
  ⟨⟨by decide, by decide⟩,
    commit_retains_iff_unsaved_gt_sparsity (phyloInit 5) (some 7) 3 []
      (by decide) (by decide)⟩

end Popcore

namespace Popcore

theorem phyloCommit_sparsity (st : PhyloPop) (p : Option Nat) (h : Nat)
    (cs : List Nat) : (phyloCommit st p h cs).sparsity = st.sparsity := rfl

theorem phyloCommit_length (st : PhyloPop) (p : Option Nat) (h : Nat)
    (cs : List Nat) :
    (phyloCommit st p h cs).arena.length = st.arena.length + 1 := by
  simp [phyloCommit]

/-- A payload-carrying commit keeps every non-root player within the
sparsity bound: the fresh child is either saved (count 0) or under the
bound, and older players are untouched. -/
theorem phyloCommit_preserves_bound (st : PhyloPop) (v : Nat) (hyper : Nat)
    (contribs : List Nat)
    (H : ∀ i, 0 < i → i < st.arena.length →
      unsavedCount st.arena i ≤ st.sparsity) :
    ∀ i, 0 < i → i < (phyloCommit st (some v) hyper contribs).arena.length →
      unsavedCount (phyloCommit st (some v) hyper contribs).arena i
        ≤ st.sparsity := by
  intro i hi0 hilen
  rw [phyloCommit_length] at hilen
  rcases Nat.lt_or_ge i st.arena.length with hlt | hge
  · rw [unsavedCount_phyloCommit_old st (some v) hyper contribs i hlt]
    exact H i hi0 hlt
  · have hieq : i = st.arena.length := by omega
    subst hieq
    simp only [phyloCommit]
    set n := st.arena.length with hn
    set child : PNode := ⟨some st.current, contribs, none, hyper, []⟩ with hchild
    set arena1 :=
      (st.arena.set st.current
          { st.arena.getD st.current default with
              children := (st.arena.getD st.current default).children
                ++ [n] })
        ++ [child] with harena1
    have hlen1 : n < arena1.length := by simp [harena1, hn]
    by_cases hcond : unsavedCount arena1 n > st.sparsity
    · have hsaved :
          (if unsavedCount arena1 n > st.sparsity then some v else none)
            = some v := if_pos hcond
      show unsavedCount
          (arena1.set n
            { child with
                params := if unsavedCount arena1 n > st.sparsity
                  then some v else none }) n ≤ st.sparsity
      rw [hsaved]
      show unsavedGo _ (n + 1) n ≤ st.sparsity
      rw [unsavedGo_succ, getD_set_self _ _ _ hlen1]
      simp
    · have hsaved :
          (if unsavedCount arena1 n > st.sparsity then some v else none)
            = none := if_neg hcond
      show unsavedCount
          (arena1.set n
            { child with
                params := if unsavedCount arena1 n > st.sparsity
                  then some v else none }) n ≤ st.sparsity
      rw [hsaved]
      have hgetn : arena1.getD n default = child := by
        rw [harena1, List.getD_append_right _ _ _ _ (by simp [hn])]
        simp [hn]
      have hagree : ∀ j, j < n + 1 →
          (((arena1.set n { child with params := none }).getD j default).params
            = (arena1.getD j default).params) ∧
          (((arena1.set n { child with params := none }).getD j default).parent
            = (arena1.getD j default).parent) ∧
          (((arena1.set n { child with params := none }).getD j default).contributors
            = (arena1.getD j default).contributors) := by
        intro j hj
        by_cases hjn : j = n
        · subst hjn
          rw [getD_set_self _ _ _ hlen1, hgetn]
          exact ⟨rfl, rfl, rfl⟩
        · rw [getD_set_ne _ _ _ _ hjn]
          exact ⟨rfl, rfl, rfl⟩
      have := unsavedGo_congr hagree (n + 1) n (Nat.lt_succ_self n)
      show unsavedGo _ (n + 1) n ≤ st.sparsity
      rw [this]
      exact Nat.le_of_not_lt hcond

theorem phyloRun_go_sparsity :
    ∀ (ops : List (Nat × Nat × List Nat)) (st : PhyloPop),
      (ops.foldl (fun st op => phyloCommit st (some op.1) op.2.1 op.2.2)
        st).sparsity = st.sparsity := by
  intro ops
  induction ops with
  | nil => intro st; rfl
  | cons op ops ih =>
    intro st
    simp only [List.foldl_cons, ih, phyloCommit_sparsity]

theorem phyloRun_go_bound :
    ∀ (ops : List (Nat × Nat × List Nat)) (st : PhyloPop),
      (∀ i, 0 < i → i < st.arena.length →
        unsavedCount st.arena i ≤ st.sparsity) →
      ∀ i, 0 < i →
        i < (ops.foldl (fun st op => phyloCommit st (some op.1) op.2.1 op.2.2)
              st).arena.length →
        unsavedCount
            (ops.foldl (fun st op => phyloCommit st (some op.1) op.2.1 op.2.2)
              st).arena i
          ≤ st.sparsity := by
  intro ops
  induction ops with
  | nil => intro st H; exact H
  | cons op ops ih =>
    intro st H
    simp only [List.foldl_cons]
    have H2 := phyloCommit_preserves_bound st op.1 op.2.1 op.2.2 H
    have := ih (phyloCommit st (some op.1) op.2.1 op.2.2)
    rw [phyloCommit_sparsity] at this
    exact this H2

/-- C2, counterexample.  With sparsity 3, after one payload-carrying
commit the root is a node of the graph whose unsaved-ancestor count is
the sentinel, far above the sparsity bound: the bound does not hold for
every node. -/
theorem root_violates_sparsity_bound :
    0 < (phyloRun 3 [(5, 0, [])]).arena.length ∧
    ¬ unsavedCount (phyloRun 3 [(5, 0, [])]).arena 0 ≤ 3 := by decide

/-- C2, amended.  For every population created with sparsity `s`, after
any sequence of payload-carrying commits every NON-ROOT node satisfies
`unsavedCount(node) ≤ s`; the root itself (which carries no payload and
reports the sentinel) is exempt. -/
theorem nonroot_unsaved_le_sparsity (s : Nat)
    (ops : List (Nat × Nat × List Nat)) (i : Nat) (hi0 : 0 < i)
    (hilen : i < (phyloRun s ops).arena.length) :
    unsavedCount (phyloRun s ops).arena i ≤ s := by
  have := phyloRun_go_bound ops (phyloInit s) (by intro i h1 h2; simp [phyloInit] at h2; omega)
    i hi0 hilen
  simpa [phyloInit] using this

theorem nonroot_unsaved_le_sparsity_witness :
    0 < 1 ∧ 1 < (phyloRun 3 [(5, 0, [])]).arena.length ∧
    unsavedCount (phyloRun 3 [(5, 0, [])]).arena 1 ≤ 3 :=
  ⟨by decide, by decide,
    nonroot_unsaved_le_sparsity 3 [(5, 0, [])] 1 (by decide) (by decide)⟩

end Popcore

namespace Popcore

/-- C10, counterexample.  The claim "for every sparsity value, the first
commit after construction always retains the payload" fails: with
`sparsity = SENTINEL + 1` (one above the sentinel the unsaved root
reports), the first commit discards the payload it was passed. -/
theorem first_commit_discards_at_huge_sparsity :
    ((phyloCommit (phyloInit (SENTINEL + 1)) (some 5) 0 []).arena.getD 1
        default).params = none := by decide

/-- C10, amended.  On a freshly constructed population the root carries
no payload and `get_nbr_unsaved_ancestors` returns the large sentinel
rather than raising; consequently, for every sparsity value AT MOST the
sentinel, the first commit after construction retains the payload passed
to it (whatever contributors from the fresh graph it names). -/
theorem first_commit_retains_below_sentinel (s : Nat) (hs : s ≤ SENTINEL)
    (v hyper : Nat) (contribs : List Nat) :
    ((phyloInit s).arena.getD 0 default).params = none ∧
    unsavedCount (phyloInit s).arena 0 = SENTINEL ∧
    ((phyloCommit (phyloInit s) (some v) hyper contribs).arena.getD 1
        default).params = some v := by
  refine ⟨rfl, rfl, ?_⟩
  have hc : phyloCommit (phyloInit s) (some v) hyper contribs
      = { arena :=
            ([(⟨none, [], none, 0, [1]⟩ : PNode),
              ⟨some 0, contribs, none, hyper, []⟩]).set 1
              ⟨some 0, contribs,
                if unsavedCount
                    [(⟨none, [], none, 0, [1]⟩ : PNode),
                     ⟨some 0, contribs, none, hyper, []⟩] 1 > s
                 then some v else none, hyper, []⟩,
          current := 1, sparsity := s } := rfl
  rw [hc]
  show (([(⟨none, [], none, 0, [1]⟩ : PNode),
      ⟨some 0, contribs, none, hyper, []⟩]).set 1
        ⟨some 0, contribs,
          if unsavedCount
              [(⟨none, [], none, 0, [1]⟩ : PNode),
               ⟨some 0, contribs, none, hyper, []⟩] 1 > s
           then some v else none, hyper, []⟩ |>.getD 1 default).params = some v
  rw [getD_set_self _ _ _ (by simp)]
  show (if unsavedCount
      [(⟨none, [], none, 0, [1]⟩ : PNode),
       ⟨some 0, contribs, none, hyper, []⟩] 1 > s
     then some v else none) = some v
  rw [if_pos]
  have hstep : unsavedCount
      [(⟨none, [], none, 0, [1]⟩ : PNode),
       ⟨some 0, contribs, none, hyper, []⟩] 1
      = 1 + SENTINEL
        + (contribs.map
            (fun c => if c < 1 then
              unsavedGo
                [(⟨none, [], none, 0, [1]⟩ : PNode),
                 ⟨some 0, contribs, none, hyper, []⟩] 1 c
              else 0)).sum := rfl
  rw [hstep]
  omega

end Popcore

namespace Popcore

theorem first_commit_retains_below_sentinel_witness :
    3 ≤ SENTINEL ∧
    (((phyloInit 3).arena.getD 0 default).params = none ∧
     unsavedCount (phyloInit 3).arena 0 = SENTINEL ∧
     ((phyloCommit (phyloInit 3) (some 7) 2 []).arena.getD 1
        default).params = some 7) :=
  ⟨by decide, first_commit_retains_below_sentinel 3 (by decide) 7 2 []⟩

end Popcore

namespace Popcore

/-! ## Commit-graph population (`src/popcore/population.py`)

`core.py` mirrors the same class with renamed fields (`name` for
`id_str`, `descendants` for `children`, `branch` for `branch_name`,
`player`/`_branch` for `current_node`/`current_branch`); the embedded
logic is identical where the two files overlap, and the differences that
matter to a claim are noted at the claim.  Player objects live in an
arena; `parent`, `children` and `contributors` hold arena indices;
`params : Option Nat` stands for the opaque `model_parameters`
(`none` = Python `None`), `hyper : Nat` for the opaque hyperparameter
dict. -/

deriving instance DecidableEq for Except

structure Player where
  idStr : String
  parent : Option Nat
  children : List Nat
  params : Option Nat
  hyper : Nat
  contributors : List Nat
  generation : Nat
  timestep : Nat
  branchName : String
  deriving Repr, DecidableEq

instance : Inhabited Player := ⟨⟨"", none, [], none, 0, [], 0, 1, ""⟩⟩

/-- Python `dict` lookup on an insertion-ordered association list. -/
def dictGet : List (String × Nat) → String → Option Nat
  | [], _ => none
  | e :: es, k => if e.1 = k then some e.2 else dictGet es k

/-- Python `dict` assignment: overwrite in place, else append (Python
dicts keep the original insertion position of an overwritten key). -/
def dictSet : List (String × Nat) → String → Nat → List (String × Nat)
  | [], k, v => [(k, v)]
  | e :: es, k, v => if e.1 = k then (k, v) :: es else e :: dictSet es k v

/-- Python `set.add`. -/
def setAdd (l : List String) (x : String) : List String :=
  if x ∈ l then l else l ++ [x]

/-- The commit graph (`Population.__init__`, population.py lines
155-181): the arena of every `Player` object ever created, the `nodes`
dict (node ids and branch names share one namespace; branch names are
aliases), the `branches` name set, the `generations` index, and the
active node / active branch. -/
structure Pop where
  arena : List Player
  nodes : List (String × Nat)
  branches : List String
  generations : List (List Nat)
  current : Nat
  currentBranch : String
  deriving Repr, DecidableEq

/-- `Population.__init__(root_id)`. -/
def popInit (rootId : String) : Pop :=
  { arena := [⟨rootId, none, [], none, 0, [], 0, 1, rootId⟩],
    nodes := [(rootId, 0)],
    branches := [rootId],
    generations := [[]],
    current := 0,
    currentBranch := rootId }

/-- The `str(player)` Python repr used by `__generate_id` (population.py
lines 200-203); it exposes the object identity (memory address), not the
id string, so distinct arena indices give distinct tokens. -/
def objRepr (i : Nat) : String :=
  "<popcore.population.Player object at 0x" ++ toString i ++ ">"

/-- Fuelled walk building the `path` string of `__generate_id`
(population.py lines 200-203): the reprs of the node and all its
ancestors, concatenated child-first. -/
def pathGo (arena : List Player) : Nat → Nat → String
  | 0, _ => ""
  | fuel + 1, i =>
    objRepr i ++
      (match (arena.getD i default).parent with
       | none => ""
       | some p => if p < i then pathGo arena fuel p else "")

/-- The string `sha1` is applied to when `__generate_id` runs on the
player at index `i`. -/
def genIdPreimage (arena : List Player) (i : Nat) : String :=
  pathGo arena (i + 1) i

/-- `Population.__generate_id(id_str, node)` (population.py lines
183-206), with the external `sha1(...).hexdigest()` digest abstracted as
the function parameter `h`. -/
def generateId (h : String → String) (arena : List Player) (i : Nat)
    (idStr : String) : String :=
  if idStr ≠ "" then idStr else h (genIdPreimage arena i)

/-- `Population.__add_gen` (population.py lines 208-211).  Python
appends at most one empty generation and then does
`generations[g].append(...)`; if `g` is still out of range Python would
raise `IndexError` - on the states the operations build, `g` is always
in range after the conditional append, and the out-of-range `List.set`
no-op is never reached. -/
def addGen (gens : List (List Nat)) (g : Nat) (i : Nat) : List (List Nat) :=
  let gens1 := if gens.length ≤ g then gens ++ [[]] else gens
  gens1.set g (gens1.getD g [] ++ [i])

/-- The child `Player` built by `add_child` inside `Population.commit`
(population.py lines 263-270): parent = active node, depth = active
depth + 1, branch label = active branch, no children yet. -/
def commitChild (pop : Pop) (params : Option Nat) (hyper : Nat)
    (contributors : List Nat) (idStr : String) (timestep : Nat) : Player :=
  ⟨idStr, some pop.current, [], params, hyper, contributors,
    (pop.arena.getD pop.current default).generation + 1, timestep,
    pop.currentBranch⟩

/-- The arena right after `add_child` ran: the child is appended to the
active node\u2019s children list and allocated at the next index. -/
def commitArena1 (pop : Pop) (params : Option Nat) (hyper : Nat)
    (contributors : List Nat) (idStr : String) (timestep : Nat) : List Player :=
  (pop.arena.set pop.current
      { pop.arena.getD pop.current default with
          children := (pop.arena.getD pop.current default).children
            ++ [pop.arena.length] })
    ++ [commitChild pop params hyper contributors idStr timestep]

/-- `Population.commit` (population.py lines 213-293) with the default
`id_hook`/`player_hook`/`persist_hook` (all identities / no-ops).  The
child is created by `add_child` and appended to the active node\u2019s
`children` BEFORE the duplicate-id check; a failing commit therefore
returns the partially mutated state, exactly as the Python `raise`
leaves it. -/
def Pop.commit (h : String → String) (pop : Pop) (params : Option Nat)
    (hyper : Nat) (contributors : List Nat) (idStr : String)
    (timestep : Nat) : Pop × Except Unit String :=
  let n := pop.arena.length
  let arena1 := commitArena1 pop params hyper contributors idStr timestep
  let id2 := generateId h arena1 n idStr
  if (dictGet pop.nodes id2).isSome then
    ({ pop with arena := arena1 }, .error ())
  else
    let child2 :=
      { commitChild pop params hyper contributors idStr timestep with
          idStr := id2 }
    let arena2 := arena1.set n child2
    let nodes2 := dictSet pop.nodes id2 n
    let gens2 := addGen pop.generations child2.generation n
    ({ pop with
        arena := arena2,
        nodes := dictSet nodes2 pop.currentBranch n,
        generations := gens2,
        current := n }, .ok id2)

/-- `Population.branch` (population.py lines 295-315): a pure alias of
the current node under a fresh name. -/
def Pop.branch (pop : Pop) (name : String) : Pop × Except Unit String :=
  if (dictGet pop.nodes name).isSome then (pop, .error ())
  else
    ({ pop with
        nodes := dictSet pop.nodes name pop.current,
        branches := setAdd pop.branches name }, .ok name)

/-- `Population.checkout` (population.py lines 317-335): resolve the
name in the shared index; a branch name becomes the active branch, a
plain node id installs the `branch_name` recorded on the node. -/
def Pop.checkout (pop : Pop) (name : String) : Pop × Except Unit Unit :=
  match dictGet pop.nodes name with
  | none => (pop, .error ())
  | some i =>
    ({ pop with
        current := i,
        currentBranch :=
          if name ∈ pop.branches then name
          else (pop.arena.getD i default).branchName }, .ok ())

/-- `Population.detach` (population.py lines 400-413): a fresh
population whose root id is the current node\u2019s id; the source
population is not modified. -/
def Pop.detach (pop : Pop) : Pop :=
  popInit (pop.arena.getD pop.current default).idStr

/-- Fuelled walk of `get_commit_history` (population.py lines 361-390):
ids from the node back to the root, most recent first. -/
def histGo (arena : List Player) : Nat → Nat → List String
  | 0, _ => []
  | fuel + 1, i =>
    (arena.getD i default).idStr ::
      (match (arena.getD i default).parent with
       | none => []
       | some p => if p < i then histGo arena fuel p else [])

def getCommitHistory (pop : Pop) (i : Nat) : List String :=
  histGo pop.arena (i + 1) i

/-- `Population.walk_lineage` (core.py lines 435-439): the commit
history of the resolved node with the last element (the root) dropped. -/
def walkLineage (pop : Pop) (name : String) : Option (List String) :=
  (dictGet pop.nodes name).map (fun i => (getCommitHistory pop i).dropLast)

/-- Fuelled parent-chain length. -/
def chainGo (arena : List Player) : Nat → Nat → Nat
  | 0, _ => 0
  | fuel + 1, i =>
    match (arena.getD i default).parent with
    | none => 0
    | some p => if p < i then chainGo arena fuel p + 1 else 0

def chainLen (arena : List Player) (i : Nat) : Nat :=
  chainGo arena (i + 1) i

/-- The graph-local operations (attach, which merges two graphs, is
modelled separately below). -/
inductive Op where
  | commitOp (idStr : String) (params : Option Nat) (contribs : List Nat)
  | branchOp (name : String)
  | checkoutOp (name : String)
  | detachOp
  deriving Repr, DecidableEq

def applyOp (h : String → String) (pop : Pop) : Op → Pop
  | .commitOp idStr params contribs => (pop.commit h params 0 contribs idStr 1).1
  | .branchOp name => (pop.branch name).1
  | .checkoutOp name => (pop.checkout name).1
  | .detachOp => pop

def runOps (h : String → String) (ops : List Op) : Pop :=
  ops.foldl (applyOp h) (popInit "_root")

end Popcore

namespace Popcore

/-- C3, counterexample.  A commit whose id already exists fails, and the
node index / pointers are untouched, but the graph is NOT left completely
unmodified: the new child was already appended to the active node\u2019s
children list before the duplicate check ran, and stays there. -/
theorem failed_commit_mutates_children :
    ((runOps (fun s => s) [.commitOp "a" none []]).commit
        (fun s => s) none 0 [] "a" 1).2 = .error () ∧
    (((runOps (fun s => s) [.commitOp "a" none []]).commit
        (fun s => s) none 0 [] "a" 1).1.arena.getD
        (runOps (fun s => s) [.commitOp "a" none []]).current default).children
      ≠ ((runOps (fun s => s) [.commitOp "a" none []]).arena.getD
        (runOps (fun s => s) [.commitOp "a" none []]).current default).children := by
  decide

/-- C3, amended.  A commit whose (explicitly supplied) id collides with
an existing key fails with the duplicate-identity error and leaves the
node index, the generations index, the branch set and both active
pointers unchanged - but the active node\u2019s children list has
already been extended with the orphaned child, which also remains in the
object arena. -/
theorem duplicate_commit_leaves_index_unchanged (h : String → String)
    (pop : Pop) (params : Option Nat) (hyper : Nat) (contribs : List Nat)
    (idStr : String) (ts : Nat) (hid : idStr ≠ "")
    (hdup : (dictGet pop.nodes idStr).isSome) :
    let r := pop.commit h params hyper contribs idStr ts
    r.2 = .error () ∧
    r.1.nodes = pop.nodes ∧
    r.1.generations = pop.generations ∧
    r.1.current = pop.current ∧
    r.1.currentBranch = pop.currentBranch ∧
    r.1.branches = pop.branches ∧
    r.1.arena = commitArena1 pop params hyper contribs idStr ts := by
  simp only [Pop.commit, generateId]
  rw [if_pos hid, if_pos hdup]
  exact ⟨rfl, rfl, rfl, rfl, rfl, rfl, rfl⟩

theorem duplicate_commit_leaves_index_unchanged_witness :
    ("a" ≠ "" ∧
      (dictGet (runOps (fun s => s) [.commitOp "a" none []]).nodes "a").isSome) ∧
    (let r := (runOps (fun s => s) [.commitOp "a" none []]).commit
        (fun s => s) none 0 [] "a" 1
     r.2 = .error () ∧
     r.1.nodes = (runOps (fun s => s) [.commitOp "a" none []]).nodes ∧
     r.1.generations = (runOps (fun s => s) [.commitOp "a" none []]).generations ∧
     r.1.current = (runOps (fun s => s) [.commitOp "a" none []]).current ∧
     r.1.currentBranch = (runOps (fun s => s) [.commitOp "a" none []]).currentBranch ∧
     r.1.branches = (runOps (fun s => s) [.commitOp "a" none []]).branches ∧
     r.1.arena = commitArena1 (runOps (fun s => s) [.commitOp "a" none []])
        none 0 [] "a" 1) :=
  ⟨⟨by decide, by decide⟩,
    duplicate_commit_leaves_index_unchanged (fun s => s)
      (runOps (fun s => s) [.commitOp "a" none []]) none 0 [] "a" 1
      (by decide) (by decide)⟩

/-- C7.  `checkout` of a name bound in the index: the active node moves
to the resolved node; if the name is a branch name it becomes the active
branch, otherwise the active branch becomes the `branch_name` recorded
on the node. -/
theorem checkout_moves_active_node (pop : Pop) (name : String) (i : Nat)
    (hres : dictGet pop.nodes name = some i) :
    (pop.checkout name).2 = .ok () ∧
    (pop.checkout name).1.current = i ∧
    (name ∈ pop.branches → (pop.checkout name).1.currentBranch = name) ∧
    (name ∉ pop.branches →
      (pop.checkout name).1.currentBranch
        = (pop.arena.getD i default).branchName) := by
  have hch : pop.checkout name =
      ({ pop with
          current := i,
          currentBranch :=
            if name ∈ pop.branches then name
            else (pop.arena.getD i default).branchName }, .ok ()) := by
    simp only [Pop.checkout, hres]
  rw [hch]
  refine ⟨rfl, rfl, fun hmem => ?_, fun hmem => ?_⟩
  · show (if name ∈ pop.branches then name
      else (pop.arena.getD i default).branchName) = name
    rw [if_pos hmem]
  · show (if name ∈ pop.branches then name
      else (pop.arena.getD i default).branchName)
      = (pop.arena.getD i default).branchName
    rw [if_neg hmem]

theorem checkout_moves_active_node_witness :
    dictGet (runOps (fun s => s) [.commitOp "a" none []]).nodes "a" = some 1 ∧
    (((runOps (fun s => s) [.commitOp "a" none []]).checkout "a").2 = .ok () ∧
     ((runOps (fun s => s) [.commitOp "a" none []]).checkout "a").1.current = 1 ∧
     ("a" ∈ (runOps (fun s => s) [.commitOp "a" none []]).branches →
       ((runOps (fun s => s) [.commitOp "a" none []]).checkout "a").1.currentBranch = "a") ∧
     ("a" ∉ (runOps (fun s => s) [.commitOp "a" none []]).branches →
       ((runOps (fun s => s) [.commitOp "a" none []]).checkout "a").1.currentBranch
         = ((runOps (fun s => s) [.commitOp "a" none []]).arena.getD 1 default).branchName)) :=
  ⟨by decide,
    checkout_moves_active_node (runOps (fun s => s) [.commitOp "a" none []])
      "a" 1 (by decide)⟩

end Popcore

namespace Popcore

/-- The arena indices (object identities) on the parent chain of `i`:
exactly the objects whose reprs `__generate_id` concatenates. -/
def chainIdxGo (arena : List Player) : Nat → Nat → List Nat
  | 0, _ => []
  | fuel + 1, i =>
    i ::
      (match (arena.getD i default).parent with
       | none => []
       | some p => if p < i then chainIdxGo arena fuel p else [])

/-- `pathGo` reads only the `parent` fields of the arena. -/
theorem pathGo_congr {A B : List Player} {n : Nat}
    (h : ∀ j, j < n →
      (A.getD j default).parent = (B.getD j default).parent) :
    ∀ fuel i, i < n → pathGo A fuel i = pathGo B fuel i := by
  intro fuel
  induction fuel with
  | zero => intro i _; rfl
  | succ f ih =>
    intro i hi
    simp only [pathGo, h i hi]
    congr 1
    split
    · rfl
    · next p hpeq =>
      by_cases hpi : p < i
      · rw [if_pos hpi, if_pos hpi, ih p (lt_trans hpi hi)]
      · rw [if_neg hpi, if_neg hpi]

/-- `pathGo` is exactly the concatenation of the object reprs along the
identity chain. -/
theorem pathGo_eq_fold (arena : List Player) :
    ∀ fuel i, pathGo arena fuel i
      = (chainIdxGo arena fuel i).foldr (fun j acc => objRepr j ++ acc) "" := by
  intro fuel
  induction fuel with
  | zero => intro i; rfl
  | succ f ih =>
    intro i
    simp only [pathGo, chainIdxGo, List.foldr_cons]
    congr 1
    split
    · rfl
    · next p hpeq =>
      by_cases hpi : p < i
      · rw [if_pos hpi, if_pos hpi, ih p]
      · rw [if_neg hpi, if_neg hpi]; rfl

/-- The id path is a function of the identity chain alone: two walks
that traverse the same object identities build the same preimage. -/
theorem pathGo_eq_of_chainIdx_eq (A B : List Player) (fuelA fuelB iA iB : Nat)
    (hch : chainIdxGo A fuelA iA = chainIdxGo B fuelB iB) :
    pathGo A fuelA iA = pathGo B fuelB iB := by
  rw [pathGo_eq_fold, pathGo_eq_fold, hch]

end Popcore

namespace Popcore

/-- Scenario A for the id-generation counterexample: the active node is
a depth-1 player with id `"a"`, and the next allocation index is 2. -/
def popA : Pop := runOps (fun s => s) [.commitOp "a" none []]

/-- Scenario B: the active node is a ROOT with id `"a"` (a branch alias
kept it reachable after a side commit), and the next allocation index is
also 2. -/
def popB : Pop :=
  applyOp (fun s => s)
    (applyOp (fun s => s)
      (applyOp (fun s => s) (popInit "a") (.branchOp "b"))
      (.commitOp "x" none []))
    (.checkoutOp "b")

/-- C9, counterexample.  Two auto-id commits whose parent has the same
id (`"a"`) and whose per-call disambiguator (the object identity of the
new node, here allocation index 2) is the same nonetheless produce
different ids, because `__generate_id` hashes the reprs of the whole
ancestor chain, not the parent id plus a disambiguator.  The digest is
the identity function here; the two hash inputs themselves differ, so
the ids differ under any injective digest. -/
theorem autoid_not_digest_of_parent_id :
    (popA.arena.getD popA.current default).idStr = "a" ∧
    (popB.arena.getD popB.current default).idStr = "a" ∧
    popA.arena.length = 2 ∧
    popB.arena.length = 2 ∧
    (popA.commit (fun s => s) none 0 [] "" 1).2
      ≠ (popB.commit (fun s => s) none 0 [] "" 1).2 := by decide

/-- C9, amended.  When `commit` is invoked without an explicit id, the
assigned id is the digest `h` applied to the concatenation of the object
reprs (identity tokens) of the new node and ALL its ancestors - not of
the parent id and a disambiguator - and it is pure in that chain: two
populations whose walks traverse equal identity chains produce equal
digest preimages (no hidden global state). -/
theorem autoid_digest_of_identity_chain :
    (∀ (h : String → String) (pop : Pop) (params : Option Nat) (hyper : Nat)
        (contribs : List Nat) (ts : Nat) (idNew : String),
        (pop.commit h params hyper contribs "" ts).2 = .ok idNew →
        idNew
          = h (genIdPreimage
              (pop.commit h params hyper contribs "" ts).1.arena
              pop.arena.length)) ∧
    (∀ (A B : List Player) (i j : Nat),
        chainIdxGo A (i + 1) i = chainIdxGo B (j + 1) j →
        genIdPreimage A i = genIdPreimage B j) := by
  constructor
  · intro h pop params hyper contribs ts idNew hok
    have hgen : generateId h (commitArena1 pop params hyper contribs "" ts)
        pop.arena.length ""
        = h (genIdPreimage (commitArena1 pop params hyper contribs "" ts)
            pop.arena.length) := by
      simp [generateId]
    simp only [Pop.commit, hgen] at hok ⊢
    split at hok
    · exact absurd hok (by simp)
    · next hdup =>
      rw [if_neg hdup]
      have hpre : genIdPreimage
          ((commitArena1 pop params hyper contribs "" ts).set pop.arena.length
            { commitChild pop params hyper contribs "" ts with
                idStr := h (genIdPreimage
                  (commitArena1 pop params hyper contribs "" ts)
                  pop.arena.length) })
          pop.arena.length
          = genIdPreimage (commitArena1 pop params hyper contribs "" ts)
              pop.arena.length := by
        apply pathGo_congr (n := pop.arena.length + 1)
        · intro j hj
          by_cases hjn : j = pop.arena.length
          · subst hjn
            rw [getD_set_self]
            · have : (commitArena1 pop params hyper contribs "" ts).getD
                  pop.arena.length default
                  = commitChild pop params hyper contribs "" ts := by
                unfold commitArena1
                rw [List.getD_append_right _ _ _ _ (by simp)]
                simp
              rw [this]
            · simp [commitArena1]
          · rw [getD_set_ne _ _ _ _ hjn]
        · omega
      simp only [hpre]
      have := hok
      injection this with hv
      exact hv.symm
  · intro A B i j hch
    exact pathGo_eq_of_chainIdx_eq A B (i + 1) (j + 1) i j hch

end Popcore

namespace Popcore

theorem autoid_digest_of_identity_chain_witness :
    (((popInit "r").commit (fun s => s) none 0 [] "" 1).2
        = .ok (genIdPreimage (commitArena1 (popInit "r") none 0 [] "" 1) 1) ∧
      chainIdxGo (popInit "r").arena 1 0
        = chainIdxGo (popInit "zz").arena 1 0) ∧
    (genIdPreimage (commitArena1 (popInit "r") none 0 [] "" 1) 1
        = genIdPreimage
            ((popInit "r").commit (fun s => s) none 0 [] "" 1).1.arena 1 ∧
      genIdPreimage (popInit "r").arena 0
        = genIdPreimage (popInit "zz").arena 0) :=
  ⟨⟨by decide, by decide⟩,
    ⟨autoid_digest_of_identity_chain.1 (fun s => s) (popInit "r") none 0 [] 1
        (genIdPreimage (commitArena1 (popInit "r") none 0 [] "" 1) 1)
        (by decide),
      autoid_digest_of_identity_chain.2 (popInit "r").arena
        (popInit "zz").arena 0 0 (by decide)⟩⟩

end Popcore

namespace Popcore

theorem dictGet_some_mem {d : List (String × Nat)} {k : String} {v : Nat}
    (h : dictGet d k = some v) : (k, v) ∈ d := by
  induction d with
  | nil => simp [dictGet] at h
  | cons e es ih =>
    obtain ⟨k1, v1⟩ := e
    by_cases hek : k1 = k
    · subst hek
      simp only [dictGet, if_pos rfl] at h
      injection h with hv
      subst hv
      exact List.mem_cons_self _ _
    · simp only [dictGet, if_neg hek] at h
      exact List.mem_cons_of_mem _ (ih h)

theorem mem_dictGet_isSome {d : List (String × Nat)} {e : String × Nat}
    (h : e ∈ d) : (dictGet d e.1).isSome := by
  induction d with
  | nil => simp at h
  | cons f fs ih =>
    rcases List.mem_cons.mp h with rfl | hmem
    · simp [dictGet]
    · by_cases hfk : f.1 = e.1
      · simp [dictGet, hfk]
      · simp only [dictGet, if_neg hfk]
        exact ih hmem

theorem dictGet_dictSet_self (d : List (String × Nat)) (k : String) (v : Nat) :
    dictGet (dictSet d k v) k = some v := by
  induction d with
  | nil => simp [dictGet, dictSet]
  | cons e es ih =>
    by_cases hek : e.1 = k
    · simp [dictSet, if_pos hek, dictGet]
    · simp [dictSet, if_neg hek, dictGet, hek, ih]

theorem dictGet_dictSet_ne (d : List (String × Nat)) (k k2 : String) (v : Nat)
    (h : k2 ≠ k) : dictGet (dictSet d k v) k2 = dictGet d k2 := by
  have hks : k ≠ k2 := Ne.symm h
  induction d with
  | nil => simp [dictSet, dictGet, hks]
  | cons e es ih =>
    obtain ⟨k1, v1⟩ := e
    by_cases hek : k1 = k
    · subst hek
      simp [dictSet, dictGet, hks]
    · by_cases hek2 : k1 = k2
      · subst hek2
        simp [dictSet, dictGet, hek]
      · simp [dictSet, dictGet, hek, hek2, ih]

theorem mem_dictSet_of_ne {d : List (String × Nat)} {e : String × Nat}
    (k : String) (v : Nat) (hmem : e ∈ d) (hne : e.1 ≠ k) :
    e ∈ dictSet d k v := by
  induction d with
  | nil => simp at hmem
  | cons f fs ih =>
    rcases List.mem_cons.mp hmem with rfl | hmem2
    · have hfk : e.1 ≠ k := hne
      simp only [dictSet, if_neg hfk]
      exact List.mem_cons_self _ _
    · by_cases hfk : f.1 = k
      · simp only [dictSet, if_pos hfk]
        exact List.mem_cons_of_mem _ hmem2
      · simp only [dictSet, if_neg hfk]
        exact List.mem_cons_of_mem _ (ih hmem2)

theorem mem_dictSet_weak {d : List (String × Nat)} {e : String × Nat}
    {k : String} {v : Nat} (h : e ∈ dictSet d k v) :
    e = (k, v) ∨ e ∈ d := by
  induction d with
  | nil =>
    simp only [dictSet] at h
    rcases List.mem_cons.mp h with rfl | hmem
    · exact Or.inl rfl
    · simp at hmem
  | cons f fs ih =>
    by_cases hfk : f.1 = k
    · simp only [dictSet, if_pos hfk] at h
      rcases List.mem_cons.mp h with rfl | hmem
      · exact Or.inl rfl
      · exact Or.inr (List.mem_cons_of_mem _ hmem)
    · simp only [dictSet, if_neg hfk] at h
      rcases List.mem_cons.mp h with rfl | hmem
      · exact Or.inr (List.mem_cons_self _ _)
      · rcases ih hmem with h1 | h2
        · exact Or.inl h1
        · exact Or.inr (List.mem_cons_of_mem _ h2)

theorem mem_keys_dictSet {d : List (String × Nat)} {k x : String} {v : Nat}
    (h : x ∈ (dictSet d k v).map Prod.fst) :
    x = k ∨ x ∈ d.map Prod.fst := by
  obtain ⟨e, hmem, rfl⟩ := List.mem_map.mp h
  rcases mem_dictSet_weak hmem with rfl | h2
  · exact Or.inl rfl
  · exact Or.inr (List.mem_map_of_mem _ h2)

theorem dictSet_keys_nodup {d : List (String × Nat)} (k : String) (v : Nat)
    (h : (d.map Prod.fst).Nodup) : ((dictSet d k v).map Prod.fst).Nodup := by
  induction d with
  | nil => simp [dictSet]
  | cons f fs ih =>
    simp only [List.map_cons, List.nodup_cons] at h
    by_cases hfk : f.1 = k
    · simp only [dictSet, if_pos hfk, List.map_cons, List.nodup_cons]
      exact ⟨hfk ▸ h.1, h.2⟩
    · simp only [dictSet, if_neg hfk, List.map_cons, List.nodup_cons]
      refine ⟨fun hx => ?_, ih h.2⟩
      rcases mem_keys_dictSet hx with rfl | h2
      · exact hfk rfl
      · exact h.1 h2

theorem mem_setAdd {l : List String} {x y : String} :
    x ∈ setAdd l y ↔ x = y ∨ x ∈ l := by
  by_cases hy : y ∈ l
  · simp only [setAdd, if_pos hy]
    constructor
    · exact Or.inr
    · rintro (rfl | hx)
      · exact hy
      · exact hx
  · simp only [setAdd, if_neg hy, List.mem_append, List.mem_singleton]
    tauto

theorem subset_setAdd (l : List String) (y : String) : l ⊆ setAdd l y := by
  intro x hx
  exact mem_setAdd.mpr (Or.inr hx)

end Popcore

namespace Popcore

/-- `chainGo` reads only the `parent` fields of the arena. -/
theorem chainGo_congr {A B : List Player} {n : Nat}
    (h : ∀ j, j < n →
      (A.getD j default).parent = (B.getD j default).parent) :
    ∀ fuel i, i < n → chainGo A fuel i = chainGo B fuel i := by
  intro fuel
  induction fuel with
  | zero => intro i _; rfl
  | succ f ih =>
    intro i hi
    simp only [chainGo, h i hi]
    split
    · rfl
    · next p hpeq =>
      by_cases hpi : p < i
      · rw [if_pos hpi, if_pos hpi, ih p (lt_trans hpi hi)]
      · rw [if_neg hpi, if_neg hpi]

theorem chainGo_eq_chainLen (arena : List Player) :
    ∀ i fuel, i < fuel → chainGo arena fuel i = chainLen arena i := by
  intro i
  induction i using Nat.strong_induction_on with
  | _ i ih =>
    intro fuel hfuel
    cases fuel with
    | zero => omega
    | succ f =>
      show chainGo arena (f + 1) i = chainGo arena (i + 1) i
      simp only [chainGo]
      split
      · rfl
      · next p hpeq =>
        by_cases hpi : p < i
        · rw [if_pos hpi, if_pos hpi, ih p hpi f (by omega), ih p hpi i hpi]
        · rw [if_neg hpi, if_neg hpi]

theorem histGo_fuel (arena : List Player) :
    ∀ i fuel, i < fuel → histGo arena fuel i = histGo arena (i + 1) i := by
  intro i
  induction i using Nat.strong_induction_on with
  | _ i ih =>
    intro fuel hfuel
    cases fuel with
    | zero => omega
    | succ f =>
      show histGo arena (f + 1) i = histGo arena (i + 1) i
      simp only [histGo]
      congr 1
      split
      · rfl
      · next p hpeq =>
        by_cases hpi : p < i
        · rw [if_pos hpi, if_pos hpi, ih p hpi f (by omega), ih p hpi i hpi]
        · rw [if_neg hpi, if_neg hpi]

/-- The commit history of node `i` has one more element than the length
of the strict ancestor chain. -/
theorem histGo_length (arena : List Player) :
    ∀ i, (histGo arena (i + 1) i).length = chainLen arena i + 1 := by
  intro i
  induction i using Nat.strong_induction_on with
  | _ i ih =>
    show (histGo arena (i + 1) i).length = chainGo arena (i + 1) i + 1
    simp only [histGo, chainGo, List.length_cons]
    split
    · rfl
    · next p hpeq =>
      by_cases hpi : p < i
      · rw [if_pos hpi, if_pos hpi, histGo_fuel arena p i hpi,
          chainGo_eq_chainLen arena p i hpi, ih p hpi]
      · rw [if_neg hpi, if_neg hpi]
        rfl

end Popcore

namespace Popcore

theorem commitArena1_length (pop : Pop) (params : Option Nat) (hyper : Nat)
    (contribs : List Nat) (idStr : String) (ts : Nat) :
    (commitArena1 pop params hyper contribs idStr ts).length
      = pop.arena.length + 1 := by
  simp [commitArena1]

theorem commitArena1_getD_new (pop : Pop) (params : Option Nat) (hyper : Nat)
    (contribs : List Nat) (idStr : String) (ts : Nat) :
    (commitArena1 pop params hyper contribs idStr ts).getD pop.arena.length
        default
      = commitChild pop params hyper contribs idStr ts := by
  unfold commitArena1
  rw [List.getD_append_right _ _ _ _ (by simp)]
  simp

theorem commitArena1_getD_old (pop : Pop) (params : Option Nat) (hyper : Nat)
    (contribs : List Nat) (idStr : String) (ts : Nat) (j : Nat)
    (hj : j < pop.arena.length) (hjc : j ≠ pop.current) :
    (commitArena1 pop params hyper contribs idStr ts).getD j default
      = pop.arena.getD j default := by
  unfold commitArena1
  rw [List.getD_append _ _ _ _ (by simpa using hj), getD_set_ne _ _ _ _ hjc]

theorem commitArena1_getD_current (pop : Pop) (params : Option Nat)
    (hyper : Nat) (contribs : List Nat) (idStr : String) (ts : Nat)
    (hc : pop.current < pop.arena.length) :
    (commitArena1 pop params hyper contribs idStr ts).getD pop.current default
      = { pop.arena.getD pop.current default with
            children := (pop.arena.getD pop.current default).children
              ++ [pop.arena.length] } := by
  unfold commitArena1
  rw [List.getD_append _ _ _ _ (by simpa using hc), getD_set_self _ _ _ hc]

/-- Below the old length, `commitArena1` preserves the `parent`,
`generation` and `branchName` fields. -/
theorem commitArena1_preserves (pop : Pop) (params : Option Nat) (hyper : Nat)
    (contribs : List Nat) (idStr : String) (ts : Nat) (j : Nat)
    (hj : j < pop.arena.length) :
    ((commitArena1 pop params hyper contribs idStr ts).getD j default).parent
        = (pop.arena.getD j default).parent ∧
    ((commitArena1 pop params hyper contribs idStr ts).getD j
        default).generation = (pop.arena.getD j default).generation ∧
    ((commitArena1 pop params hyper contribs idStr ts).getD j
        default).branchName = (pop.arena.getD j default).branchName := by
  by_cases hjc : j = pop.current
  · subst hjc
    rw [commitArena1_getD_current pop params hyper contribs idStr ts hj]
    exact ⟨rfl, rfl, rfl⟩
  · rw [commitArena1_getD_old pop params hyper contribs idStr ts j hj hjc]
    exact ⟨rfl, rfl, rfl⟩

/-- The invariant bundle maintained by `commit` / `branch` / `checkout`
/ `detach` on one graph. -/
structure Inv (pop : Pop) : Prop where
  current_lt : pop.current < pop.arena.length
  vals_lt : ∀ e ∈ pop.nodes, e.2 < pop.arena.length
  curBranch_mem : pop.currentBranch ∈ pop.branches
  branch_haskey : ∀ b ∈ pop.branches, (dictGet pop.nodes b).isSome
  keys_nodup : (pop.nodes.map Prod.fst).Nodup
  nonbranch_inj : ∀ e1 ∈ pop.nodes, ∀ e2 ∈ pop.nodes,
    e1.1 ∉ pop.branches → e2.1 ∉ pop.branches → e1.1 ≠ e2.1 → e1.2 ≠ e2.2
  player_branch_mem : ∀ i, i < pop.arena.length →
    (pop.arena.getD i default).branchName ∈ pop.branches
  parent_lt : ∀ i, i < pop.arena.length →
    ∀ p, (pop.arena.getD i default).parent = some p → p < i
  chain_gen : ∀ i, i < pop.arena.length →
    chainLen pop.arena i = (pop.arena.getD i default).generation

theorem inv_popInit (rootId : String) : Inv (popInit rootId) := by
  refine ⟨?_, ?_, ?_, ?_, ?_, ?_, ?_, ?_, ?_⟩
  · simp [popInit]
  · intro e he
    simp [popInit] at he
    simp [he, popInit]
  · simp [popInit]
  · intro b hb
    simp [popInit] at hb
    simp [popInit, hb, dictGet]
  · simp [popInit]
  · intro e1 h1 e2 h2 hb1 hb2 hne
    simp [popInit] at h1 h2
    rw [Prod.ext_iff] at h1 h2
    exact absurd (h1.1.trans h2.1.symm) hne
  · intro i hi
    simp [popInit] at hi
    simp [hi, popInit]
  · intro i hi p hp
    simp [popInit] at hi
    subst hi
    simp [popInit] at hp
  · intro i hi
    simp [popInit] at hi
    subst hi
    rfl

end Popcore

namespace Popcore

theorem chainGo_succ (arena : List Player) (fuel i : Nat) :
    chainGo arena (fuel + 1) i
      = (match (arena.getD i default).parent with
         | none => 0
         | some p => if p < i then chainGo arena fuel p + 1 else 0) := rfl

/-- The three arena-side invariant components, proved for the post-
`add_child` arena of a commit. -/
theorem commitArena1_arena_inv (pop : Pop) (params : Option Nat) (hyper : Nat)
    (contribs : List Nat) (idStr : String) (ts : Nat) (hInv : Inv pop) :
    (∀ i, i < pop.arena.length + 1 →
      ((commitArena1 pop params hyper contribs idStr ts).getD i
          default).branchName ∈ pop.branches) ∧
    (∀ i, i < pop.arena.length + 1 →
      ∀ p, ((commitArena1 pop params hyper contribs idStr ts).getD i
          default).parent = some p → p < i) ∧
    (∀ i, i < pop.arena.length + 1 →
      chainLen (commitArena1 pop params hyper contribs idStr ts) i
        = ((commitArena1 pop params hyper contribs idStr ts).getD i
            default).generation) := by
  set n := pop.arena.length with hn
  have hpar : ∀ j, j < n →
      ((commitArena1 pop params hyper contribs idStr ts).getD j
        default).parent = (pop.arena.getD j default).parent :=
    fun j hj => (commitArena1_preserves pop params hyper contribs idStr ts j hj).1
  have hgen : ∀ j, j < n →
      ((commitArena1 pop params hyper contribs idStr ts).getD j
        default).generation = (pop.arena.getD j default).generation :=
    fun j hj => (commitArena1_preserves pop params hyper contribs idStr ts j hj).2.1
  have hbr : ∀ j, j < n →
      ((commitArena1 pop params hyper contribs idStr ts).getD j
        default).branchName = (pop.arena.getD j default).branchName :=
    fun j hj => (commitArena1_preserves pop params hyper contribs idStr ts j hj).2.2
  have hnew := commitArena1_getD_new pop params hyper contribs idStr ts
  refine ⟨?_, ?_, ?_⟩
  · intro i hi
    by_cases hin : i = n
    · subst hin
      rw [hnew]
      exact hInv.curBranch_mem
    · have hi2 : i < n := by omega
      rw [hbr i hi2]
      exact hInv.player_branch_mem i hi2
  · intro i hi p hp
    by_cases hin : i = n
    · subst hin
      rw [hnew] at hp
      have hpc : pop.current = p := by
        simpa [commitChild] using hp
      rw [← hpc]
      exact hInv.current_lt
    · have hi2 : i < n := by omega
      rw [hpar i hi2] at hp
      exact hInv.parent_lt i hi2 p hp
  · intro i hi
    by_cases hin : i = n
    · subst hin
      show chainGo _ (n + 1) n = _
      rw [chainGo_succ, hnew]
      simp only [commitChild]
      rw [if_pos hInv.current_lt]
      rw [chainGo_eq_chainLen _ pop.current n hInv.current_lt]
      rw [show chainLen (commitArena1 pop params hyper contribs idStr ts)
            pop.current
          = chainGo (commitArena1 pop params hyper contribs idStr ts)
            (pop.current + 1) pop.current from rfl]
      rw [chainGo_congr hpar (pop.current + 1) pop.current hInv.current_lt]
      rw [show chainGo pop.arena (pop.current + 1) pop.current
          = chainLen pop.arena pop.current from rfl]
      rw [hInv.chain_gen pop.current hInv.current_lt]
    · have hi2 : i < n := by omega
      show chainLen _ i = _
      rw [show chainLen (commitArena1 pop params hyper contribs idStr ts) i
          = chainGo (commitArena1 pop params hyper contribs idStr ts) (i + 1) i
          from rfl]
      rw [chainGo_congr hpar (i + 1) i hi2]
      rw [hgen i hi2]
      exact hInv.chain_gen i hi2

end Popcore

namespace Popcore

theorem arena_inv_transfer {A B : List Player} {m : Nat} {brs : List String}
    (heq : ∀ j, j < m →
      (B.getD j default).parent = (A.getD j default).parent ∧
      (B.getD j default).generation = (A.getD j default).generation ∧
      (B.getD j default).branchName = (A.getD j default).branchName)
    (hbrA : ∀ i, i < m → (A.getD i default).branchName ∈ brs)
    (hparA : ∀ i, i < m → ∀ p, (A.getD i default).parent = some p → p < i)
    (hchA : ∀ i, i < m → chainLen A i = (A.getD i default).generation) :
    (∀ i, i < m → (B.getD i default).branchName ∈ brs) ∧
    (∀ i, i < m → ∀ p, (B.getD i default).parent = some p → p < i) ∧
    (∀ i, i < m → chainLen B i = (B.getD i default).generation) := by
  refine ⟨?_, ?_, ?_⟩
  · intro i hi
    rw [(heq i hi).2.2]
    exact hbrA i hi
  · intro i hi p hp
    rw [(heq i hi).1] at hp
    exact hparA i hi p hp
  · intro i hi
    show chainGo B (i + 1) i = _
    rw [chainGo_congr (fun j hj => (heq j hj).1) (i + 1) i hi]
    rw [(heq i hi).2.1]
    exact hchA i hi

/-- `commit` preserves the invariant, whether it succeeds or fails. -/
theorem inv_commit (h : String → String) (pop : Pop) (params : Option Nat)
    (hyper : Nat) (contribs : List Nat) (idStr : String) (ts : Nat)
    (hInv : Inv pop) :
    Inv (pop.commit h params hyper contribs idStr ts).1 := by
  obtain ⟨hbr1, hpar1, hch1⟩ :=
    commitArena1_arena_inv pop params hyper contribs idStr ts hInv
  have hlen1 := commitArena1_length pop params hyper contribs idStr ts
  simp only [Pop.commit]
  by_cases hdup : (dictGet pop.nodes
      (generateId h (commitArena1 pop params hyper contribs idStr ts)
        pop.arena.length idStr)).isSome
  · rw [if_pos hdup]
    refine ⟨?_, ?_, ?_, ?_, ?_, ?_, ?_, ?_, ?_⟩
    · show pop.current < _
      rw [hlen1]
      have := hInv.current_lt
      omega
    · intro e he
      show e.2 < _
      rw [hlen1]
      have := hInv.vals_lt e he
      omega
    · exact hInv.curBranch_mem
    · exact hInv.branch_haskey
    · exact hInv.keys_nodup
    · exact hInv.nonbranch_inj
    · show ∀ i, i < _ → _
      rw [hlen1]
      exact hbr1
    · show ∀ i, i < _ → _
      rw [hlen1]
      exact hpar1
    · show ∀ i, i < _ → _
      rw [hlen1]
      exact hch1
  · rw [if_neg hdup]
    set n := pop.arena.length with hn
    set id2 := generateId h (commitArena1 pop params hyper contribs idStr ts)
      n idStr with hid2
    set child2 := { commitChild pop params hyper contribs idStr ts with
      idStr := id2 } with hchild2
    set arena2 := (commitArena1 pop params hyper contribs idStr ts).set n
      child2 with ha2
    have hlen2 : arena2.length = n + 1 := by
      rw [ha2, List.length_set, hlen1]
    have heq2 : ∀ j, j < n + 1 →
        (arena2.getD j default).parent
          = ((commitArena1 pop params hyper contribs idStr ts).getD j
              default).parent ∧
        (arena2.getD j default).generation
          = ((commitArena1 pop params hyper contribs idStr ts).getD j
              default).generation ∧
        (arena2.getD j default).branchName
          = ((commitArena1 pop params hyper contribs idStr ts).getD j
              default).branchName := by
      intro j hj
      by_cases hjn : j = n
      · subst hjn
        rw [ha2, getD_set_self _ _ _ (by rw [hlen1]; omega),
          commitArena1_getD_new]
        exact ⟨rfl, rfl, rfl⟩
      · rw [ha2, getD_set_ne _ _ _ _ hjn]
        exact ⟨rfl, rfl, rfl⟩
    obtain ⟨hbr2, hpar2, hch2⟩ := arena_inv_transfer heq2 hbr1 hpar1 hch1
    refine ⟨?_, ?_, ?_, ?_, ?_, ?_, ?_, ?_, ?_⟩
    · show n < arena2.length
      rw [hlen2]
      omega
    · intro e he
      show e.2 < arena2.length
      rw [hlen2]
      rcases mem_dictSet_weak he with rfl | he2
      · omega
      rcases mem_dictSet_weak he2 with rfl | he3
      · omega
      · have := hInv.vals_lt e he3
        omega
    · exact hInv.curBranch_mem
    · intro b hb
      by_cases hbc : b = pop.currentBranch
      · subst hbc
        rw [dictGet_dictSet_self]
        rfl
      · rw [dictGet_dictSet_ne _ _ _ _ hbc]
        by_cases hbi : b = id2
        · subst hbi
          rw [dictGet_dictSet_self]
          rfl
        · rw [dictGet_dictSet_ne _ _ _ _ hbi]
          exact hInv.branch_haskey b hb
    · exact dictSet_keys_nodup _ _ (dictSet_keys_nodup _ _ hInv.keys_nodup)
    · intro e1 he1 e2 he2 hb1 hb2 hne
      rcases mem_dictSet_weak he1 with rfl | he1b
      · exact absurd hInv.curBranch_mem hb1
      rcases mem_dictSet_weak he2 with rfl | he2b
      · exact absurd hInv.curBranch_mem hb2
      rcases mem_dictSet_weak he1b with rfl | he1c
      · rcases mem_dictSet_weak he2b with rfl | he2c
        · exact absurd rfl hne
        · have := hInv.vals_lt e2 he2c
          show n ≠ e2.2
          omega
      · rcases mem_dictSet_weak he2b with rfl | he2c
        · have := hInv.vals_lt e1 he1c
          show e1.2 ≠ n
          omega
        · exact hInv.nonbranch_inj e1 he1c e2 he2c hb1 hb2 hne
    · show ∀ i, i < arena2.length → _
      rw [hlen2]
      exact hbr2
    · show ∀ i, i < arena2.length → _
      rw [hlen2]
      exact hpar2
    · show ∀ i, i < arena2.length → _
      rw [hlen2]
      exact hch2

end Popcore

namespace Popcore

/-- `branch` preserves the invariant. -/
theorem inv_branch (pop : Pop) (name : String) (hInv : Inv pop) :
    Inv (pop.branch name).1 := by
  simp only [Pop.branch]
  by_cases hdup : (dictGet pop.nodes name).isSome
  · rw [if_pos hdup]
    exact hInv
  · rw [if_neg hdup]
    refine ⟨hInv.current_lt, ?_, ?_, ?_, ?_, ?_, ?_, hInv.parent_lt,
      hInv.chain_gen⟩
    · intro e he
      rcases mem_dictSet_weak he with rfl | he2
      · exact hInv.current_lt
      · exact hInv.vals_lt e he2
    · exact subset_setAdd _ _ hInv.curBranch_mem
    · intro b hb
      by_cases hbn : b = name
      · subst hbn
        rw [dictGet_dictSet_self]
        rfl
      · rw [dictGet_dictSet_ne _ _ _ _ hbn]
        rcases mem_setAdd.mp hb with rfl | hb2
        · exact absurd rfl hbn
        · exact hInv.branch_haskey b hb2
    · exact dictSet_keys_nodup _ _ hInv.keys_nodup
    · intro e1 he1 e2 he2 hb1 hb2 hne
      have hname : name ∈ setAdd pop.branches name := mem_setAdd.mpr (Or.inl rfl)
      rcases mem_dictSet_weak he1 with rfl | he1b
      · exact absurd hname hb1
      rcases mem_dictSet_weak he2 with rfl | he2b
      · exact absurd hname hb2
      exact hInv.nonbranch_inj e1 he1b e2 he2b
        (fun hx => hb1 (subset_setAdd _ _ hx))
        (fun hx => hb2 (subset_setAdd _ _ hx)) hne
    · intro i hi
      exact subset_setAdd _ _ (hInv.player_branch_mem i hi)

/-- `checkout` preserves the invariant. -/
theorem inv_checkout (pop : Pop) (name : String) (hInv : Inv pop) :
    Inv (pop.checkout name).1 := by
  simp only [Pop.checkout]
  cases hres : dictGet pop.nodes name with
  | none => exact hInv
  | some i =>
    have hi : i < pop.arena.length := by
      have hmem := dictGet_some_mem hres
      exact hInv.vals_lt (name, i) hmem
    refine ⟨hi, hInv.vals_lt, ?_, hInv.branch_haskey, hInv.keys_nodup,
      hInv.nonbranch_inj, hInv.player_branch_mem, hInv.parent_lt,
      hInv.chain_gen⟩
    show (if name ∈ pop.branches then name
      else (pop.arena.getD i default).branchName) ∈ pop.branches
    by_cases hb : name ∈ pop.branches
    · rw [if_pos hb]
      exact hb
    · rw [if_neg hb]
      exact hInv.player_branch_mem i hi

theorem inv_applyOp (h : String → String) (pop : Pop) (op : Op)
    (hInv : Inv pop) : Inv (applyOp h pop op) := by
  cases op with
  | commitOp idStr params contribs => exact inv_commit h pop params 0 contribs idStr 1 hInv
  | branchOp name => exact inv_branch pop name hInv
  | checkoutOp name => exact inv_checkout pop name hInv
  | detachOp => exact hInv

theorem inv_runOps (h : String → String) (ops : List Op) :
    Inv (runOps h ops) := by
  suffices hgen : ∀ (ops : List Op) (pop : Pop), Inv pop →
      Inv (ops.foldl (applyOp h) pop) by
    exact hgen ops (popInit "_root") (inv_popInit "_root")
  intro ops
  induction ops with
  | nil => intro pop hInv; exact hInv
  | cons op ops ih =>
    intro pop hInv
    exact ih (applyOp h pop op) (inv_applyOp h pop op hInv)

end Popcore

namespace Popcore

theorem commit_branches (h : String → String) (pop : Pop)
    (params : Option Nat) (hyper : Nat) (contribs : List Nat)
    (idStr : String) (ts : Nat) :
    (pop.commit h params hyper contribs idStr ts).1.branches
      = pop.branches := by
  simp only [Pop.commit]
  split
  · rfl
  · rfl

/-- A non-branch index entry survives any further local operation: no
existing entry is silently overwritten (the only overwritten key is the
active branch tip, which is a branch name). -/
theorem nodes_entry_stable (h : String → String) (pop : Pop) (op : Op)
    (e : String × Nat) (hInv : Inv pop) (he : e ∈ pop.nodes)
    (hnb : e.1 ∉ (applyOp h pop op).branches) :
    e ∈ (applyOp h pop op).nodes := by
  cases op with
  | commitOp idStr params contribs =>
    have hbr := commit_branches h pop params 0 contribs idStr 1
    rw [show applyOp h pop (.commitOp idStr params contribs)
        = (pop.commit h params 0 contribs idStr 1).1 from rfl] at hnb ⊢
    rw [hbr] at hnb
    simp only [Pop.commit]
    by_cases hdup : (dictGet pop.nodes
        (generateId h (commitArena1 pop params 0 contribs idStr 1)
          pop.arena.length idStr)).isSome
    · rw [if_pos hdup]
      exact he
    · rw [if_neg hdup]
      show e ∈ dictSet (dictSet pop.nodes _ _) pop.currentBranch _
      have hne1 : e.1 ≠ generateId h
          (commitArena1 pop params 0 contribs idStr 1)
          pop.arena.length idStr := by
        intro hx
        apply hdup
        rw [← hx]
        exact mem_dictGet_isSome he
      have hne2 : e.1 ≠ pop.currentBranch := by
        intro hx
        exact hnb (hx ▸ hInv.curBranch_mem)
      exact mem_dictSet_of_ne _ _ (mem_dictSet_of_ne _ _ he hne1) hne2
  | branchOp name =>
    simp only [applyOp, Pop.branch] at hnb ⊢
    by_cases hdup : (dictGet pop.nodes name).isSome
    · rw [if_pos hdup] at hnb ⊢
      exact he
    · rw [if_neg hdup] at hnb ⊢
      have hne : e.1 ≠ name := by
        intro hx
        exact hnb (hx ▸ mem_setAdd.mpr (Or.inl rfl))
      exact mem_dictSet_of_ne _ _ he hne
  | checkoutOp name =>
    simp only [applyOp, Pop.checkout] at hnb ⊢
    cases hres : dictGet pop.nodes name with
    | none => exact he
    | some i => exact he
  | detachOp => exact he

/-- C6, amended.  Along every sequence of commit, branch, checkout and
detach operations (attach excluded): index keys stay pairwise distinct,
distinct non-branch ids always refer to distinct players, and a
non-branch index entry is never silently overwritten by a further
operation. -/
theorem ids_unique_without_attach (h : String → String) (ops : List Op) :
    ((runOps h ops).nodes.map Prod.fst).Nodup ∧
    (∀ e1 ∈ (runOps h ops).nodes, ∀ e2 ∈ (runOps h ops).nodes,
      e1.1 ∉ (runOps h ops).branches → e2.1 ∉ (runOps h ops).branches →
      e1.1 ≠ e2.1 → e1.2 ≠ e2.2) ∧
    (∀ (op : Op) (e : String × Nat), e ∈ (runOps h ops).nodes →
      e.1 ∉ (runOps h (ops ++ [op])).branches →
      e ∈ (runOps h (ops ++ [op])).nodes) := by
  have hInv := inv_runOps h ops
  have happ : ∀ op : Op, runOps h (ops ++ [op])
      = applyOp h (runOps h ops) op := by
    intro op
    simp [runOps, List.foldl_append]
  refine ⟨hInv.keys_nodup, hInv.nonbranch_inj, ?_⟩
  intro op e he hnb
  rw [happ op] at hnb ⊢
  exact nodes_entry_stable h (runOps h ops) op e hInv he hnb

theorem ids_unique_without_attach_witness :
    (("a", 1) ∈ (runOps (fun s => s)
        [.commitOp "a" none [], .branchOp "b", .checkoutOp "b",
         .commitOp "c" none []]).nodes ∧
     ("c", 2) ∈ (runOps (fun s => s)
        [.commitOp "a" none [], .branchOp "b", .checkoutOp "b",
         .commitOp "c" none []]).nodes ∧
     "a" ∉ (runOps (fun s => s)
        [.commitOp "a" none [], .branchOp "b", .checkoutOp "b",
         .commitOp "c" none []]).branches ∧
     "c" ∉ (runOps (fun s => s)
        [.commitOp "a" none [], .branchOp "b", .checkoutOp "b",
         .commitOp "c" none []]).branches ∧
     ("a" : String) ≠ "c" ∧
     ("a", 1) ∈ (runOps (fun s => s)
        [.commitOp "a" none [], .branchOp "b", .checkoutOp "b",
         .commitOp "c" none []]).nodes ∧
     "a" ∉ (runOps (fun s => s)
        ([.commitOp "a" none [], .branchOp "b", .checkoutOp "b",
          .commitOp "c" none []] ++ [.branchOp "z"])).branches) ∧
    (((runOps (fun s => s)
        [.commitOp "a" none [], .branchOp "b", .checkoutOp "b",
         .commitOp "c" none []]).nodes.map Prod.fst).Nodup ∧
     (1 : Nat) ≠ 2 ∧
     ("a", 1) ∈ (runOps (fun s => s)
        ([.commitOp "a" none [], .branchOp "b", .checkoutOp "b",
          .commitOp "c" none []] ++ [.branchOp "z"])).nodes) :=
  ⟨⟨by decide, by decide, by decide, by decide, by decide, by decide,
    by decide⟩,
   ⟨(ids_unique_without_attach (fun s => s)
      [.commitOp "a" none [], .branchOp "b", .checkoutOp "b",
       .commitOp "c" none []]).1,
    (ids_unique_without_attach (fun s => s)
      [.commitOp "a" none [], .branchOp "b", .checkoutOp "b",
       .commitOp "c" none []]).2.1 ("a", 1) (by decide) ("c", 2) (by decide)
      (by decide) (by decide) (by decide),
    (ids_unique_without_attach (fun s => s)
      [.commitOp "a" none [], .branchOp "b", .checkoutOp "b",
       .commitOp "c" none []]).2.2 (.branchOp "z") ("a", 1) (by decide)
      (by decide)⟩⟩

/-- C8.  For every node reachable in the index of a graph built by
commit/branch/checkout (and detach), the lineage walked by
`walk_lineage` (commit history of the resolved node with the root
dropped) has length exactly the node\u2019s recorded depth. -/
theorem lineage_length_eq_depth (h : String → String) (ops : List Op)
    (name : String) (i : Nat)
    (hres : dictGet (runOps h ops).nodes name = some i) :
    walkLineage (runOps h ops) name
      = some ((getCommitHistory (runOps h ops) i).dropLast) ∧
    ((getCommitHistory (runOps h ops) i).dropLast).length
      = ((runOps h ops).arena.getD i default).generation := by
  have hInv := inv_runOps h ops
  have hi : i < (runOps h ops).arena.length :=
    hInv.vals_lt (name, i) (dictGet_some_mem hres)
  constructor
  · simp [walkLineage, hres]
  · rw [List.length_dropLast, getCommitHistory, histGo_length]
    rw [hInv.chain_gen i hi]
    omega

theorem lineage_length_eq_depth_witness :
    dictGet (runOps (fun s => s)
        [.commitOp "a" none [], .commitOp "c" none []]).nodes "c"
      = some 2 ∧
    (walkLineage (runOps (fun s => s)
        [.commitOp "a" none [], .commitOp "c" none []]) "c"
      = some ((getCommitHistory (runOps (fun s => s)
          [.commitOp "a" none [], .commitOp "c" none []]) 2).dropLast) ∧
     ((getCommitHistory (runOps (fun s => s)
          [.commitOp "a" none [], .commitOp "c" none []]) 2).dropLast).length
      = ((runOps (fun s => s)
          [.commitOp "a" none [], .commitOp "c" none []]).arena.getD 2
            default).generation) :=
  ⟨by decide,
    lineage_length_eq_depth (fun s => s)
      [.commitOp "a" none [], .commitOp "c" none []] "c" 2 (by decide)⟩

end Popcore

namespace Popcore

/-! ## Attach (`Population.attach`, population.py lines 415-503; core.py
lines 475-564 is the same algorithm with `auto_rehash` defaulting to
false instead of true).  Merging two object graphs is modelled by
concatenating the arenas: every index-valued field of the incoming
players is shifted by the receiving arena length. -/

def shiftPlayer (off : Nat) (p : Player) : Player :=
  { p with
      parent := p.parent.map (fun x => x + off),
      children := p.children.map (fun x => x + off),
      contributors := p.contributors.map (fun x => x + off) }

/-- The `while new_branch in self.nodes.keys()` renaming loop
(population.py lines 466-474): try `b`, `b1`, `b2`, ... and return the
first name not in the receiving index.  The fuel `|nodes| + 1` always
suffices: the candidates are pairwise distinct and the index has only
`|nodes|` keys. -/
def freshNameGo (d : List (String × Nat)) (b : String) : Nat → Nat → String
  | 0, i => b ++ toString i
  | fuel + 1, i =>
    let cand := if i = 0 then b else b ++ toString i
    if (dictGet d cand).isSome then freshNameGo d b fuel (i + 1) else cand

def freshName (d : List (String × Nat)) (b : String) : String :=
  freshNameGo d b (d.length + 1) 0

/-- `branch_renaming[b]` as a function: defined on `other`\u2019s branch
names (Python would raise `KeyError` on any other name; the operations
only ever look up names that are in the map). -/
def renameBranch (selfNodes : List (String × Nat)) (obranches : List String)
    (b : String) : String :=
  if b ∈ obranches then freshName selfNodes b else b

structure AttachSt where
  arena : List Player
  nodes : List (String × Nat)
  gens : List (List Nat)
  toAdd : List (String × Nat)
  failed : Bool
  deriving Repr, DecidableEq

/-- The `for id_str, player in population.nodes.items()` loop of attach
(population.py lines 476-500).  A raised collision stops the loop with
the partially mutated state, as in Python. -/
def attachLoop (h idHook : String → String) (autoRehash : Bool)
    (rootId : String) (obranches : List String)
    (selfNodes0 : List (String × Nat)) (off : Nat) :
    List (String × Nat) → AttachSt → AttachSt
  | [], st => st
  | (k, pi) :: rest, st =>
    if k = rootId then
      attachLoop h idHook autoRehash rootId obranches selfNodes0 off rest st
    else if k ∈ obranches then
      attachLoop h idHook autoRehash rootId obranches selfNodes0 off rest
        { st with toAdd := dictSet st.toAdd (freshName selfNodes0 k) (pi + off) }
    else
      let idx := pi + off
      let p := st.arena.getD idx default
      let newId := if autoRehash then h (genIdPreimage st.arena idx) else k
      let newId2 := idHook newId
      let p2 := { p with
        idStr := newId2,
        branchName := renameBranch selfNodes0 obranches p.branchName }
      let arena2 := st.arena.set idx p2
      if (dictGet st.nodes k).isSome then
        { st with arena := arena2, failed := true }
      else
        attachLoop h idHook autoRehash rootId obranches selfNodes0 off rest
          { st with
              arena := arena2,
              nodes := dictSet st.nodes newId2 idx,
              gens := addGen st.gens p2.generation idx }

/-- `Population.attach(population, id_hook, auto_rehash)` (population.py
lines 415-503). -/
def Pop.attach (h idHook : String → String) (autoRehash : Bool)
    (self other : Pop) : Pop × Except Unit Unit :=
  let rootId := (other.arena.getD 0 default).idStr
  match dictGet self.nodes rootId with
  | none => (self, .error ())
  | some nodeIdx =>
    let off := self.arena.length
    let shifted := other.arena.map (shiftPlayer off)
    let rootChildren := ((other.arena.getD 0 default).children).map
      (fun x => x + off)
    let node := (self.arena ++ shifted).getD nodeIdx default
    let arenaA := (self.arena ++ shifted).set nodeIdx
      { node with children := node.children ++ rootChildren }
    let arenaB := rootChildren.foldl
      (fun a c => a.set c { a.getD c default with parent := some nodeIdx })
      arenaA
    let st := attachLoop h idHook autoRehash rootId other.branches self.nodes
      off other.nodes ⟨arenaB, self.nodes, self.generations, [], false⟩
    if st.failed then
      ({ self with
          arena := st.arena,
          nodes := st.nodes,
          generations := st.gens }, .error ())
    else
      ({ self with
          arena := st.arena,
          nodes := st.toAdd.foldl (fun d e => dictSet d e.1 e.2) st.nodes,
          generations := st.gens,
          branches := (other.branches.map (freshName self.nodes)).foldl
            setAdd self.branches }, .ok ())

/-- The distinct players the index of a graph refers to. -/
def playersFinset (pop : Pop) : Finset Nat :=
  (pop.nodes.map Prod.snd).toFinset

def playerCount (pop : Pop) : Nat := (playersFinset pop).card

end Popcore

namespace Popcore

/-- A receiving graph: just the root. -/
def selfA : Pop := popInit "_root"

/-- A detached copy of `selfA` with one extra branch `"x"` aliasing its
root. -/
def otherA : Pop := applyOp (fun s => s) selfA.detach (.branchOp "x")

/-- A receiving graph with one commit `"a"`. -/
def selfB : Pop := runOps (fun s => s) [.commitOp "a" none []]

/-- A detached copy of `selfB` (rooted at `"a"`) grown by one commit
`"c"`. -/
def otherB : Pop := applyOp (fun s => s) selfB.detach (.commitOp "c" none [])

/-- A detached copy of `selfB` (rooted at `"a"`) grown by one commit
`"c"` on a fresh branch `"y"`, so the root's own index entry is not
overwritten by the branch-tip advance. -/
def otherC : Pop :=
  applyOp (fun s => s)
    (applyOp (fun s => s)
      (applyOp (fun s => s) selfB.detach (.branchOp "y"))
      (.checkoutOp "y"))
    (.commitOp "c" none [])

/-- C4, counterexample.  A successful hook-free attach of a detached
graph carrying an extra branch alias of its root: the receiving index
ends with 2 distinct players where `N + M - 1 = 1`, because the branch
alias re-inserts the detached root object (which the node loop was
supposed to skip). -/
theorem attach_duplicates_detached_root :
    (Pop.attach (fun s => s) (fun s => s) false selfA otherA).2 = .ok () ∧
    playerCount selfA = 1 ∧
    playerCount otherA = 1 ∧
    playerCount (Pop.attach (fun s => s) (fun s => s) false selfA otherA).1
      = 2 ∧
    playerCount (Pop.attach (fun s => s) (fun s => s) false selfA otherA).1
      ≠ playerCount selfA + playerCount otherA - 1 := by decide

/-- C5, counterexample.  In a successful hook-free attach the incoming
node `"c"` keeps its depth 1 even though the splice-point node has depth
1: no `depth += receivingNode.depth` re-basing happens (the branch-label
rewrite, by contrast, does: `"a"` becomes `"a1"`). -/
theorem attach_does_not_rebase_depth :
    (Pop.attach (fun s => s) (fun s => s) false selfB otherB).2 = .ok () ∧
    dictGet (Pop.attach (fun s => s) (fun s => s) false selfB otherB).1.nodes
        "c" = some 3 ∧
    (otherB.arena.getD 1 default).generation = 1 ∧
    (selfB.arena.getD 1 default).generation = 1 ∧
    ((Pop.attach (fun s => s) (fun s => s) false selfB otherB).1.arena.getD 3
        default).branchName = "a1" ∧
    ((Pop.attach (fun s => s) (fun s => s) false selfB otherB).1.arena.getD 3
        default).generation = 1 ∧
    ((Pop.attach (fun s => s) (fun s => s) false selfB otherB).1.arena.getD 3
        default).generation ≠ 1 + 1 := by decide

/-- C6, counterexample.  `attach` checks the OLD id but inserts under
the NEW (hooked) id: with an id hook that returns `"_root"`, the attach
succeeds and silently overwrites the existing `"_root"` index entry
(which referred to player 1) with player 3, and the `"c"` entry never
appears: ids are not kept unique and an existing entry is overwritten
without any error. -/
theorem attach_idhook_overwrites_entry :
    (Pop.attach (fun s => s) (fun _ => "_root") false selfB otherB).2
      = .ok () ∧
    dictGet selfB.nodes "_root" = some 1 ∧
    dictGet (Pop.attach (fun s => s) (fun _ => "_root") false selfB
        otherB).1.nodes "_root" = some 3 ∧
    (Pop.attach (fun s => s) (fun _ => "_root") false selfB otherB).1.nodes
      = [("_root", 3), ("a", 1)] := by decide

end Popcore

namespace Popcore

def nodeKeys (rootId : String) (obranches : List String)
    (entries : List (String × Nat)) : List String :=
  entries.filterMap
    (fun e => if e.1 = rootId ∨ e.1 ∈ obranches then none else some e.1)

def nodeVals (rootId : String) (obranches : List String)
    (entries : List (String × Nat)) : List Nat :=
  entries.filterMap
    (fun e => if e.1 = rootId ∨ e.1 ∈ obranches then none else some e.2)

def addKeys (selfNodes : List (String × Nat)) (rootId : String)
    (obranches : List String) (entries : List (String × Nat)) : List String :=
  entries.filterMap
    (fun e => if e.1 ≠ rootId ∧ e.1 ∈ obranches
      then some (freshName selfNodes e.1) else none)

/-- The index entries a hook-free attach inserts during its node loop. -/
def attachNodeEntries (rootId : String) (obranches : List String) (off : Nat)
    (entries : List (String × Nat)) : List (String × Nat) :=
  entries.filterMap
    (fun e => if e.1 = rootId ∨ e.1 ∈ obranches then none
      else some (e.1, e.2 + off))

/-- The `nodes_to_add` alias entries a hook-free attach accumulates for
the renamed branch keys. -/
def attachAddEntries (selfNodes : List (String × Nat)) (rootId : String)
    (obranches : List String) (off : Nat) (entries : List (String × Nat)) :
    List (String × Nat) :=
  entries.filterMap
    (fun e => if e.1 ≠ rootId ∧ e.1 ∈ obranches
      then some (freshName selfNodes e.1, e.2 + off) else none)

theorem dictSet_fresh_append (d : List (String × Nat)) (k : String) (v : Nat)
    (h : ¬(dictGet d k).isSome) : dictSet d k v = d ++ [(k, v)] := by
  induction d with
  | nil => rfl
  | cons f fs ih =>
    by_cases hfk : f.1 = k
    · exfalso
      apply h
      simp [dictGet, hfk]
    · simp only [dictGet, if_neg hfk] at h
      simp only [dictSet, if_neg hfk, List.cons_append, ih h]

end Popcore

namespace Popcore

/-- One-step unfolding of the hook-free attach loop (definitional). -/
theorem attachLoop_plain_cons (rootId : String) (obranches : List String)
    (selfNodes0 : List (String × Nat)) (off : Nat) (k : String) (pi : Nat)
    (rest : List (String × Nat)) (st : AttachSt) :
    attachLoop (fun s => s) (fun s => s) false rootId obranches selfNodes0 off
      ((k, pi) :: rest) st
      = (if k = rootId then
          attachLoop (fun s => s) (fun s => s) false rootId obranches
            selfNodes0 off rest st
         else if k ∈ obranches then
          attachLoop (fun s => s) (fun s => s) false rootId obranches
            selfNodes0 off rest
            { st with
                toAdd := dictSet st.toAdd (freshName selfNodes0 k)
                  (pi + off) }
         else if (dictGet st.nodes k).isSome then
          { st with
              arena := st.arena.set (pi + off)
                { st.arena.getD (pi + off) default with
                    idStr := k,
                    branchName := renameBranch selfNodes0 obranches
                      (st.arena.getD (pi + off) default).branchName },
              failed := true }
         else
          attachLoop (fun s => s) (fun s => s) false rootId obranches
            selfNodes0 off rest
            { st with
                arena := st.arena.set (pi + off)
                  { st.arena.getD (pi + off) default with
                      idStr := k,
                      branchName := renameBranch selfNodes0 obranches
                        (st.arena.getD (pi + off) default).branchName },
                nodes := dictSet st.nodes k (pi + off),
                gens := addGen st.gens
                  (st.arena.getD (pi + off) default).generation
                  (pi + off) }) := rfl

/-- Characterization of the hook-free attach node loop: under the
freshness and distinctness side conditions it never raises, appends
exactly the expected node entries and branch-alias entries, and rewrites
exactly the id and branch label of each inserted player. -/
theorem attachLoop_plain_spec (rootId : String) (obranches : List String)
    (selfNodes0 : List (String × Nat)) (off : Nat) :
    ∀ (entries : List (String × Nat)) (st : AttachSt),
    st.failed = false →
    (∀ e ∈ entries, e.1 ≠ rootId → e.1 ∉ obranches →
      ¬(dictGet st.nodes e.1).isSome) →
    (nodeKeys rootId obranches entries).Nodup →
    (∀ e ∈ entries, e.1 ≠ rootId → e.1 ∈ obranches →
      ¬(dictGet st.toAdd (freshName selfNodes0 e.1)).isSome) →
    (addKeys selfNodes0 rootId obranches entries).Nodup →
    (nodeVals rootId obranches entries).Nodup →
    (∀ v ∈ nodeVals rootId obranches entries, v + off < st.arena.length) →
    ((attachLoop (fun s => s) (fun s => s) false rootId obranches selfNodes0
        off entries st).failed = false ∧
     (attachLoop (fun s => s) (fun s => s) false rootId obranches selfNodes0
        off entries st).nodes
       = st.nodes ++ attachNodeEntries rootId obranches off entries ∧
     (attachLoop (fun s => s) (fun s => s) false rootId obranches selfNodes0
        off entries st).toAdd
       = st.toAdd ++ attachAddEntries selfNodes0 rootId obranches off entries ∧
     (attachLoop (fun s => s) (fun s => s) false rootId obranches selfNodes0
        off entries st).arena.length = st.arena.length ∧
     (∀ j, j ∉ (nodeVals rootId obranches entries).map (fun v => v + off) →
       (attachLoop (fun s => s) (fun s => s) false rootId obranches selfNodes0
          off entries st).arena.getD j default = st.arena.getD j default) ∧
     (∀ e ∈ entries, e.1 ≠ rootId → e.1 ∉ obranches →
       (attachLoop (fun s => s) (fun s => s) false rootId obranches selfNodes0
          off entries st).arena.getD (e.2 + off) default
         = { st.arena.getD (e.2 + off) default with
               idStr := e.1,
               branchName := renameBranch selfNodes0 obranches
                 (st.arena.getD (e.2 + off) default).branchName })) := by
  intro entries
  induction entries with
  | nil =>
    intro st hf h1 h2 h3 h4 h5 h6
    refine ⟨hf, ?_, ?_, rfl, ?_, ?_⟩
    · simp [attachLoop, attachNodeEntries]
    · simp [attachLoop, attachAddEntries]
    · intro j _
      simp [attachLoop]
    · intro e he
      simp at he
  | cons e0 rest ih =>
    obtain ⟨k, pi⟩ := e0
    intro st hf h1 h2 h3 h4 h5 h6
    by_cases hk : k = rootId
    · have hne : nodeKeys rootId obranches ((k, pi) :: rest)
          = nodeKeys rootId obranches rest := by
        simp [nodeKeys, List.filterMap_cons, hk]
      have hnv : nodeVals rootId obranches ((k, pi) :: rest)
          = nodeVals rootId obranches rest := by
        simp [nodeVals, List.filterMap_cons, hk]
      have hen : attachNodeEntries rootId obranches off ((k, pi) :: rest)
          = attachNodeEntries rootId obranches off rest := by
        simp [attachNodeEntries, List.filterMap_cons, hk]
      have hae : attachAddEntries selfNodes0 rootId obranches off
          ((k, pi) :: rest)
          = attachAddEntries selfNodes0 rootId obranches off rest := by
        simp [attachAddEntries, List.filterMap_cons, hk]
      rw [hne] at h2
      rw [hnv] at h5 h6
      have hak : addKeys selfNodes0 rootId obranches ((k, pi) :: rest)
          = addKeys selfNodes0 rootId obranches rest := by
        simp [addKeys, List.filterMap_cons, hk]
      rw [hak] at h4
      obtain ⟨c1, c2, c3, c4, c5, c6⟩ := ih st hf
        (fun e he ha hb => h1 e (List.mem_cons_of_mem _ he) ha hb) h2
        (fun e he ha hb => h3 e (List.mem_cons_of_mem _ he) ha hb) h4 h5 h6
      rw [attachLoop_plain_cons, if_pos hk, hen, hae, hnv]
      refine ⟨c1, c2, c3, c4, c5, ?_⟩
      intro e he ha hb
      rcases List.mem_cons.mp he with rfl | he2
      · exact absurd hk ha
      · exact c6 e he2 ha hb
    · by_cases hbr : k ∈ obranches
      · have hne : nodeKeys rootId obranches ((k, pi) :: rest)
            = nodeKeys rootId obranches rest := by
          simp [nodeKeys, List.filterMap_cons, hbr]
        have hnv : nodeVals rootId obranches ((k, pi) :: rest)
            = nodeVals rootId obranches rest := by
          simp [nodeVals, List.filterMap_cons, hbr]
        have hen : attachNodeEntries rootId obranches off ((k, pi) :: rest)
            = attachNodeEntries rootId obranches off rest := by
          simp [attachNodeEntries, List.filterMap_cons, hbr]
        have hak : addKeys selfNodes0 rootId obranches ((k, pi) :: rest)
            = freshName selfNodes0 k
              :: addKeys selfNodes0 rootId obranches rest := by
          simp [addKeys, List.filterMap_cons, hk, hbr]
        have hae : attachAddEntries selfNodes0 rootId obranches off
            ((k, pi) :: rest)
            = (freshName selfNodes0 k, pi + off)
              :: attachAddEntries selfNodes0 rootId obranches off rest := by
          simp [attachAddEntries, List.filterMap_cons, hk, hbr]
        rw [hne] at h2
        rw [hnv] at h5 h6
        rw [hak, List.nodup_cons] at h4
        have hfreshk : ¬(dictGet st.toAdd (freshName selfNodes0 k)).isSome :=
          h3 (k, pi) (List.mem_cons_self _ _) hk hbr
        have h3' : ∀ e ∈ rest, e.1 ≠ rootId → e.1 ∈ obranches →
            ¬(dictGet (dictSet st.toAdd (freshName selfNodes0 k) (pi + off))
              (freshName selfNodes0 e.1)).isSome := by
          intro e he ha hb
          have hmemk : freshName selfNodes0 e.1
              ∈ addKeys selfNodes0 rootId obranches rest := by
            simp only [addKeys, List.mem_filterMap]
            exact ⟨e, he, by simp [ha, hb]⟩
          have hnek : freshName selfNodes0 e.1 ≠ freshName selfNodes0 k := by
            intro hx
            exact h4.1 (hx ▸ hmemk)
          rw [dictGet_dictSet_ne _ _ _ _ hnek]
          exact h3 e (List.mem_cons_of_mem _ he) ha hb
        obtain ⟨c1, c2, c3, c4, c5, c6⟩ := ih
          { st with
              toAdd := dictSet st.toAdd (freshName selfNodes0 k) (pi + off) }
          hf (fun e he ha hb => h1 e (List.mem_cons_of_mem _ he) ha hb) h2
          h3' h4.2 h5 h6
        rw [attachLoop_plain_cons, if_neg hk, if_pos hbr, hen, hae, hnv]
        have htoadd : dictSet st.toAdd (freshName selfNodes0 k) (pi + off)
            = st.toAdd ++ [(freshName selfNodes0 k, pi + off)] :=
          dictSet_fresh_append _ _ _ hfreshk
        refine ⟨c1, c2, ?_, c4, c5, ?_⟩
        · rw [c3]
          show dictSet st.toAdd (freshName selfNodes0 k) (pi + off)
              ++ attachAddEntries selfNodes0 rootId obranches off rest = _
          rw [htoadd, List.append_assoc]
          rfl
        · intro e he ha hb
          rcases List.mem_cons.mp he with rfl | he2
          · exact absurd hbr hb
          · exact c6 e he2 ha hb
      · have hfreshk : ¬(dictGet st.nodes k).isSome :=
          h1 (k, pi) (List.mem_cons_self _ _) hk hbr
        have hne : nodeKeys rootId obranches ((k, pi) :: rest)
            = k :: nodeKeys rootId obranches rest := by
          simp [nodeKeys, List.filterMap_cons, hk, hbr]
        have hnv : nodeVals rootId obranches ((k, pi) :: rest)
            = pi :: nodeVals rootId obranches rest := by
          simp [nodeVals, List.filterMap_cons, hk, hbr]
        have hen : attachNodeEntries rootId obranches off ((k, pi) :: rest)
            = (k, pi + off) :: attachNodeEntries rootId obranches off rest := by
          simp [attachNodeEntries, List.filterMap_cons, hk, hbr]
        have hak : addKeys selfNodes0 rootId obranches ((k, pi) :: rest)
            = addKeys selfNodes0 rootId obranches rest := by
          simp [addKeys, List.filterMap_cons, hk, hbr]
        have hae : attachAddEntries selfNodes0 rootId obranches off
            ((k, pi) :: rest)
            = attachAddEntries selfNodes0 rootId obranches off rest := by
          simp [attachAddEntries, List.filterMap_cons, hk, hbr]
        rw [hne, List.nodup_cons] at h2
        rw [hnv, List.nodup_cons] at h5
        rw [hnv] at h6
        rw [hak] at h4
        have hpilt : pi + off < st.arena.length :=
          h6 pi (List.mem_cons_self _ _)
        have h1' : ∀ e ∈ rest, e.1 ≠ rootId → e.1 ∉ obranches →
            ¬(dictGet (dictSet st.nodes k (pi + off)) e.1).isSome := by
          intro e he ha hb
          have hmemk : e.1 ∈ nodeKeys rootId obranches rest := by
            simp only [nodeKeys, List.mem_filterMap]
            refine ⟨e, he, ?_⟩
            rw [if_neg]
            push_neg
            exact ⟨ha, hb⟩
          have hnek : e.1 ≠ k := by
            intro hx
            exact h2.1 (hx ▸ hmemk)
          rw [dictGet_dictSet_ne _ _ _ _ hnek]
          exact h1 e (List.mem_cons_of_mem _ he) ha hb
        have h6' : ∀ v ∈ nodeVals rootId obranches rest,
            v + off < (st.arena.set (pi + off)
              { st.arena.getD (pi + off) default with
                  idStr := k,
                  branchName := renameBranch selfNodes0 obranches
                    (st.arena.getD (pi + off) default).branchName }).length := by
          intro v hv
          rw [List.length_set]
          exact h6 v (List.mem_cons_of_mem _ hv)
        obtain ⟨c1, c2, c3, c4, c5, c6⟩ := ih
          { st with
              arena := st.arena.set (pi + off)
                { st.arena.getD (pi + off) default with
                    idStr := k,
                    branchName := renameBranch selfNodes0 obranches
                      (st.arena.getD (pi + off) default).branchName },
              nodes := dictSet st.nodes k (pi + off),
              gens := addGen st.gens
                (st.arena.getD (pi + off) default).generation (pi + off) }
          hf h1' h2.2
          (fun e he ha hb => h3 e (List.mem_cons_of_mem _ he) ha hb) h4
          h5.2 h6'
        rw [attachLoop_plain_cons, if_neg hk, if_neg hbr, if_neg hfreshk,
          hen, hae, hnv]
        have hnodes2 : dictSet st.nodes k (pi + off)
            = st.nodes ++ [(k, pi + off)] :=
          dictSet_fresh_append _ _ _ hfreshk
        have harena_ne : ∀ j, j ≠ pi + off →
            (st.arena.set (pi + off)
              { st.arena.getD (pi + off) default with
                  idStr := k,
                  branchName := renameBranch selfNodes0 obranches
                    (st.arena.getD (pi + off) default).branchName }).getD j
                default
              = st.arena.getD j default := by
          intro j hj
          exact getD_set_ne _ _ _ _ hj
        have harena_self : (st.arena.set (pi + off)
            { st.arena.getD (pi + off) default with
                idStr := k,
                branchName := renameBranch selfNodes0 obranches
                  (st.arena.getD (pi + off) default).branchName }).getD
              (pi + off) default
            = { st.arena.getD (pi + off) default with
                  idStr := k,
                  branchName := renameBranch selfNodes0 obranches
                    (st.arena.getD (pi + off) default).branchName } :=
          getD_set_self _ _ _ hpilt
        refine ⟨c1, ?_, c3, ?_, ?_, ?_⟩
        · rw [c2]
          show dictSet st.nodes k (pi + off)
              ++ attachNodeEntries rootId obranches off rest = _
          rw [hnodes2, List.append_assoc]
          rfl
        · rw [c4, List.length_set]
        · intro j hj
          simp only [List.map_cons, List.mem_cons] at hj
          push_neg at hj
          rw [c5 j hj.2]
          exact harena_ne j hj.1
        · intro e he ha hb
          rcases List.mem_cons.mp he with rfl | he2
          · have hnotin : (k, pi).2 + off
                ∉ (nodeVals rootId obranches rest).map (fun v => v + off) := by
              intro hx
              obtain ⟨v, hv, hveq⟩ := List.mem_map.mp hx
              have hvp : v = pi := by omega
              exact h5.1 (hvp ▸ hv)
            rw [c5 _ hnotin]
            exact harena_self
          · have hvmem : e.2 ∈ nodeVals rootId obranches rest := by
              simp only [nodeVals, List.mem_filterMap]
              refine ⟨e, he2, ?_⟩
              rw [if_neg]
              push_neg
              exact ⟨ha, hb⟩
            have hne2 : e.2 + off ≠ pi + off := by
              intro hx
              have hvp : e.2 = pi := by omega
              exact h5.1 (hvp ▸ hvmem)
            rw [c6 e he2 ha hb, harena_ne _ hne2]

theorem dictGet_append_none {d1 d2 : List (String × Nat)} {k : String}
    (h : dictGet d1 k = none) : dictGet (d1 ++ d2) k = dictGet d2 k := by
  induction d1 with
  | nil => rfl
  | cons f fs ih =>
    by_cases hfk : f.1 = k
    · simp [dictGet, hfk] at h
    · simp only [dictGet, if_neg hfk] at h
      simp only [List.cons_append, dictGet, if_neg hfk]
      exact ih h

theorem dictGet_append_some {d1 d2 : List (String × Nat)} {k : String}
    (h : (dictGet d1 k).isSome) : dictGet (d1 ++ d2) k = dictGet d1 k := by
  induction d1 with
  | nil => simp [dictGet] at h
  | cons f fs ih =>
    by_cases hfk : f.1 = k
    · simp [dictGet, hfk]
    · simp only [dictGet, if_neg hfk] at h ⊢
      exact ih h

/-- `dict.update(nodes_to_add)` appends when all incoming keys are fresh
and pairwise distinct. -/
theorem foldl_dictSet_append (L : List (String × Nat)) :
    ∀ (d : List (String × Nat)),
    (∀ e ∈ L, ¬(dictGet d e.1).isSome) →
    (L.map Prod.fst).Nodup →
    L.foldl (fun d2 e => dictSet d2 e.1 e.2) d = d ++ L := by
  induction L with
  | nil => intro d _ _; simp
  | cons f fs ih =>
    intro d hfresh hnodup
    rw [List.map_cons, List.nodup_cons] at hnodup
    have hf : ¬(dictGet d f.1).isSome := hfresh f (List.mem_cons_self _ _)
    simp only [List.foldl_cons]
    rw [dictSet_fresh_append _ _ _ hf]
    have hfresh2 : ∀ e ∈ fs, ¬(dictGet (d ++ [(f.1, f.2)]) e.1).isSome := by
      intro e he
      have hn : dictGet d e.1 = none := by
        have := hfresh e (List.mem_cons_of_mem _ he)
        cases hx : dictGet d e.1 with
        | none => rfl
        | some v => rw [hx] at this; simp at this
      rw [dictGet_append_none hn]
      have hnef : f.1 ≠ e.1 := by
        intro hx
        exact hnodup.1 (hx ▸ List.mem_map_of_mem _ he)
      simp [dictGet, hnef]
    have := ih (d ++ [(f.1, f.2)]) hfresh2 hnodup.2
    rw [this, List.append_assoc]
    rfl

/-- The splice fold (re-parenting the detached root\u2019s children)
touches only the listed indices. -/
theorem spliceFold_untouched (nodeIdx : Nat) (L : List Nat) :
    ∀ (a : List Player) (j : Nat), j ∉ L →
    (L.foldl (fun a c => a.set c
        { a.getD c default with parent := some nodeIdx }) a).getD j default
      = a.getD j default := by
  induction L with
  | nil => intro a j _; rfl
  | cons c cs ih =>
    intro a j hj
    rw [List.mem_cons] at hj
    push_neg at hj
    simp only [List.foldl_cons]
    rw [ih _ j hj.2, getD_set_ne _ _ _ _ hj.1]

theorem spliceFold_length (nodeIdx : Nat) (L : List Nat) :
    ∀ (a : List Player),
    (L.foldl (fun a c => a.set c
        { a.getD c default with parent := some nodeIdx }) a).length
      = a.length := by
  induction L with
  | nil => intro a; rfl
  | cons c cs ih =>
    intro a
    simp only [List.foldl_cons]
    rw [ih, List.length_set]

/-- The splice fold changes only `parent` fields. -/
theorem spliceFold_fields (nodeIdx : Nat) (L : List Nat) :
    ∀ (a : List Player) (j : Nat),
    ((L.foldl (fun a c => a.set c
        { a.getD c default with parent := some nodeIdx }) a).getD j
          default).idStr = (a.getD j default).idStr ∧
    ((L.foldl (fun a c => a.set c
        { a.getD c default with parent := some nodeIdx }) a).getD j
          default).generation = (a.getD j default).generation ∧
    ((L.foldl (fun a c => a.set c
        { a.getD c default with parent := some nodeIdx }) a).getD j
          default).branchName = (a.getD j default).branchName ∧
    ((L.foldl (fun a c => a.set c
        { a.getD c default with parent := some nodeIdx }) a).getD j
          default).params = (a.getD j default).params := by
  induction L with
  | nil => intro a j; exact ⟨rfl, rfl, rfl, rfl⟩
  | cons c cs ih =>
    intro a j
    simp only [List.foldl_cons]
    obtain ⟨i1, i2, i3, i4⟩ := ih (a.set c
      { a.getD c default with parent := some nodeIdx }) j
    rw [i1, i2, i3, i4]
    by_cases hjc : j = c
    · subst hjc
      by_cases hlt : j < a.length
      · rw [getD_set_self _ _ _ hlt]
        exact ⟨rfl, rfl, rfl, rfl⟩
      · rw [List.getD_eq_default _ _ (by simpa using Nat.le_of_not_lt hlt),
          List.getD_eq_default _ _ (Nat.le_of_not_lt hlt)]
        exact ⟨rfl, rfl, rfl, rfl⟩
    · rw [getD_set_ne _ _ _ _ hjc]
      exact ⟨rfl, rfl, rfl, rfl⟩

theorem getD_map_shift (off : Nat) (l : List Player) (i : Nat)
    (hi : i < l.length) :
    (l.map (shiftPlayer off)).getD i default
      = shiftPlayer off (l.getD i default) := by
  rw [List.getD_eq_getElem _ _ (by simpa using hi),
    List.getD_eq_getElem _ _ hi, List.getElem_map]

theorem attachNodeEntries_keys (rootId : String) (obranches : List String)
    (off : Nat) (entries : List (String × Nat)) :
    (attachNodeEntries rootId obranches off entries).map Prod.fst
      = nodeKeys rootId obranches entries := by
  induction entries with
  | nil => rfl
  | cons e rest ih =>
    by_cases hc : e.1 = rootId ∨ e.1 ∈ obranches
    · simp only [attachNodeEntries, nodeKeys, List.filterMap_cons, if_pos hc]
      exact ih
    · simp only [attachNodeEntries, nodeKeys, List.filterMap_cons,
        if_neg hc, List.map_cons]
      exact congrArg (fun l => e.1 :: l) ih

theorem attachAddEntries_keys (selfNodes : List (String × Nat))
    (rootId : String) (obranches : List String) (off : Nat)
    (entries : List (String × Nat)) :
    (attachAddEntries selfNodes rootId obranches off entries).map Prod.fst
      = addKeys selfNodes rootId obranches entries := by
  induction entries with
  | nil => rfl
  | cons e rest ih =>
    by_cases hc : e.1 ≠ rootId ∧ e.1 ∈ obranches
    · simp only [attachAddEntries, addKeys, List.filterMap_cons,
        if_pos hc, List.map_cons]
      exact congrArg (fun l => freshName selfNodes e.1 :: l) ih
    · simp only [attachAddEntries, addKeys, List.filterMap_cons, if_neg hc]
      exact ih

theorem dictGet_eq_none_of_not_mem_keys {d : List (String × Nat)} {k : String}
    (h : k ∉ d.map Prod.fst) : dictGet d k = none := by
  induction d with
  | nil => rfl
  | cons f fs ih =>
    rw [List.map_cons, List.mem_cons] at h
    push_neg at h
    have hfk : ¬ f.1 = k := fun hx => h.1 (Eq.symm hx)
    simp only [dictGet, if_neg hfk]
    exact ih h.2

/-- Side conditions under which a hook-free attach is well behaved.
Every component is decidable, so the bundle can be checked by `decide`
on concrete populations. -/
def AttachOK (self other : Pop) (nodeIdx : Nat) : Prop :=
  dictGet self.nodes ((other.arena.getD 0 default).idStr) = some nodeIdx ∧
  nodeIdx < self.arena.length ∧
  (∀ e ∈ other.nodes, e.1 ≠ (other.arena.getD 0 default).idStr →
    e.1 ∉ other.branches → ¬(dictGet self.nodes e.1).isSome) ∧
  (nodeKeys (other.arena.getD 0 default).idStr other.branches
    other.nodes).Nodup ∧
  (addKeys self.nodes (other.arena.getD 0 default).idStr other.branches
    other.nodes).Nodup ∧
  (nodeVals (other.arena.getD 0 default).idStr other.branches
    other.nodes).Nodup ∧
  (∀ v ∈ nodeVals (other.arena.getD 0 default).idStr other.branches
    other.nodes, v < other.arena.length) ∧
  (∀ e ∈ other.nodes, e.1 ≠ (other.arena.getD 0 default).idStr →
    e.1 ∈ other.branches →
    ¬(dictGet self.nodes (freshName self.nodes e.1)).isSome ∧
    freshName self.nodes e.1
      ∉ nodeKeys (other.arena.getD 0 default).idStr other.branches
        other.nodes)

instance (self other : Pop) (nodeIdx : Nat) :
    Decidable (AttachOK self other nodeIdx) := by
  unfold AttachOK
  infer_instance

/-- Unfolding of `Pop.attach` once the splice point resolves. -/
theorem attach_unfold (h idHook : String → String) (autoRehash : Bool)
    (self other : Pop) (nodeIdx : Nat)
    (hroot : dictGet self.nodes ((other.arena.getD 0 default).idStr)
      = some nodeIdx) :
    Pop.attach h idHook autoRehash self other
      = (let st := attachLoop h idHook autoRehash
          ((other.arena.getD 0 default).idStr) other.branches self.nodes
          self.arena.length other.nodes
          ⟨(((other.arena.getD 0 default).children).map
              (fun x => x + self.arena.length)).foldl
              (fun a c => a.set c
                { a.getD c default with parent := some nodeIdx })
              ((self.arena
                  ++ other.arena.map (shiftPlayer self.arena.length)).set
                nodeIdx
                { (self.arena ++ other.arena.map
                    (shiftPlayer self.arena.length)).getD nodeIdx default
                    with
                    children := ((self.arena ++ other.arena.map
                      (shiftPlayer self.arena.length)).getD nodeIdx
                        default).children
                      ++ ((other.arena.getD 0 default).children).map
                        (fun x => x + self.arena.length) }),
            self.nodes, self.generations, [], false⟩
         if st.failed then
          ({ self with
              arena := st.arena,
              nodes := st.nodes,
              generations := st.gens }, .error ())
         else
          ({ self with
              arena := st.arena,
              nodes := st.toAdd.foldl (fun d e => dictSet d e.1 e.2) st.nodes,
              generations := st.gens,
              branches := (other.branches.map (freshName self.nodes)).foldl
                setAdd self.branches }, .ok ())) := by
  simp only [Pop.attach, hroot]

/-- Characterization of a hook-free attach under the `AttachOK` side
conditions: it succeeds, the receiving index is extended by exactly the
incoming node entries followed by the renamed branch aliases, the
pre-existing players are untouched except for the splice point gaining
the incoming root\u2019s children, and every inserted player keeps its
generation and has its branch label renamed. -/
theorem attach_plain_spec (self other : Pop) (nodeIdx : Nat)
    (hok : AttachOK self other nodeIdx) :
    (Pop.attach (fun s => s) (fun s => s) false self other).2 = .ok () ∧
    (Pop.attach (fun s => s) (fun s => s) false self other).1.nodes
      = self.nodes
        ++ attachNodeEntries ((other.arena.getD 0 default).idStr)
          other.branches self.arena.length other.nodes
        ++ attachAddEntries self.nodes ((other.arena.getD 0 default).idStr)
          other.branches self.arena.length other.nodes ∧
    (∀ j, j < self.arena.length → j ≠ nodeIdx →
      (Pop.attach (fun s => s) (fun s => s) false self other).1.arena.getD j
          default
        = self.arena.getD j default) ∧
    ((Pop.attach (fun s => s) (fun s => s) false self other).1.arena.getD
        nodeIdx default
      = { self.arena.getD nodeIdx default with
            children := (self.arena.getD nodeIdx default).children
              ++ ((other.arena.getD 0 default).children).map
                (fun x => x + self.arena.length) }) ∧
    (∀ e ∈ other.nodes, e.1 ≠ (other.arena.getD 0 default).idStr →
      e.1 ∉ other.branches →
      ((Pop.attach (fun s => s) (fun s => s) false self
          other).1.arena.getD (e.2 + self.arena.length) default).idStr
        = e.1 ∧
      ((Pop.attach (fun s => s) (fun s => s) false self
          other).1.arena.getD (e.2 + self.arena.length) default).generation
        = (other.arena.getD e.2 default).generation ∧
      ((Pop.attach (fun s => s) (fun s => s) false self
          other).1.arena.getD (e.2 + self.arena.length) default).branchName
        = renameBranch self.nodes other.branches
            (other.arena.getD e.2 default).branchName) := by
  obtain ⟨hroot, hnlt, hB1, hB2, hB4, hB5, hB6, hB7⟩ := hok
  have hlenAB : ((((other.arena.getD 0 default).children).map
          (fun x => x + self.arena.length)).foldl
          (fun a c => a.set c
            { a.getD c default with parent := some nodeIdx })
          ((self.arena
              ++ other.arena.map (shiftPlayer self.arena.length)).set
            nodeIdx
            { (self.arena ++ other.arena.map
                (shiftPlayer self.arena.length)).getD nodeIdx default
                with
                children := ((self.arena ++ other.arena.map
                  (shiftPlayer self.arena.length)).getD nodeIdx
                    default).children
                  ++ ((other.arena.getD 0 default).children).map
                    (fun x => x + self.arena.length) })).length
      = self.arena.length + other.arena.length := by
    rw [spliceFold_length, List.length_set, List.length_append,
      List.length_map]
  obtain ⟨c1, c2, c3, c4, c5, c6⟩ :=
    attachLoop_plain_spec ((other.arena.getD 0 default).idStr) other.branches
      self.nodes self.arena.length other.nodes
      ⟨(((other.arena.getD 0 default).children).map
          (fun x => x + self.arena.length)).foldl
          (fun a c => a.set c
            { a.getD c default with parent := some nodeIdx })
          ((self.arena
              ++ other.arena.map (shiftPlayer self.arena.length)).set
            nodeIdx
            { (self.arena ++ other.arena.map
                (shiftPlayer self.arena.length)).getD nodeIdx default
                with
                children := ((self.arena ++ other.arena.map
                  (shiftPlayer self.arena.length)).getD nodeIdx
                    default).children
                  ++ ((other.arena.getD 0 default).children).map
                    (fun x => x + self.arena.length) }),
        self.nodes, self.generations, [], false⟩
      rfl hB1 hB2 (fun e he ha hb => by simp [dictGet]) hB4 hB5
      (fun v hv => by
        show v + self.arena.length < ((((other.arena.getD 0 default).children).map
          (fun x => x + self.arena.length)).foldl
          (fun a c => a.set c
            { a.getD c default with parent := some nodeIdx })
          ((self.arena
              ++ other.arena.map (shiftPlayer self.arena.length)).set
            nodeIdx
            { (self.arena ++ other.arena.map
                (shiftPlayer self.arena.length)).getD nodeIdx default
                with
                children := ((self.arena ++ other.arena.map
                  (shiftPlayer self.arena.length)).getD nodeIdx
                    default).children
                  ++ ((other.arena.getD 0 default).children).map
                    (fun x => x + self.arena.length) })).length
        rw [hlenAB]
        have := hB6 v hv
        omega)
  have hattach2 : Pop.attach (fun s => s) (fun s => s) false self other
      = ({ self with
            arena := (attachLoop (fun s => s) (fun s => s) false
      ((other.arena.getD 0 default).idStr) other.branches self.nodes
      self.arena.length other.nodes
      ⟨(((other.arena.getD 0 default).children).map
          (fun x => x + self.arena.length)).foldl
          (fun a c => a.set c
            { a.getD c default with parent := some nodeIdx })
          ((self.arena
              ++ other.arena.map (shiftPlayer self.arena.length)).set
            nodeIdx
            { (self.arena ++ other.arena.map
                (shiftPlayer self.arena.length)).getD nodeIdx default
                with
                children := ((self.arena ++ other.arena.map
                  (shiftPlayer self.arena.length)).getD nodeIdx
                    default).children
                  ++ ((other.arena.getD 0 default).children).map
                    (fun x => x + self.arena.length) }),
        self.nodes, self.generations, [], false⟩).arena,
            nodes := (attachLoop (fun s => s) (fun s => s) false
      ((other.arena.getD 0 default).idStr) other.branches self.nodes
      self.arena.length other.nodes
      ⟨(((other.arena.getD 0 default).children).map
          (fun x => x + self.arena.length)).foldl
          (fun a c => a.set c
            { a.getD c default with parent := some nodeIdx })
          ((self.arena
              ++ other.arena.map (shiftPlayer self.arena.length)).set
            nodeIdx
            { (self.arena ++ other.arena.map
                (shiftPlayer self.arena.length)).getD nodeIdx default
                with
                children := ((self.arena ++ other.arena.map
                  (shiftPlayer self.arena.length)).getD nodeIdx
                    default).children
                  ++ ((other.arena.getD 0 default).children).map
                    (fun x => x + self.arena.length) }),
        self.nodes, self.generations, [], false⟩).toAdd.foldl
              (fun d e => dictSet d e.1 e.2)
              (attachLoop (fun s => s) (fun s => s) false
      ((other.arena.getD 0 default).idStr) other.branches self.nodes
      self.arena.length other.nodes
      ⟨(((other.arena.getD 0 default).children).map
          (fun x => x + self.arena.length)).foldl
          (fun a c => a.set c
            { a.getD c default with parent := some nodeIdx })
          ((self.arena
              ++ other.arena.map (shiftPlayer self.arena.length)).set
            nodeIdx
            { (self.arena ++ other.arena.map
                (shiftPlayer self.arena.length)).getD nodeIdx default
                with
                children := ((self.arena ++ other.arena.map
                  (shiftPlayer self.arena.length)).getD nodeIdx
                    default).children
                  ++ ((other.arena.getD 0 default).children).map
                    (fun x => x + self.arena.length) }),
        self.nodes, self.generations, [], false⟩).nodes,
            generations := (attachLoop (fun s => s) (fun s => s) false
      ((other.arena.getD 0 default).idStr) other.branches self.nodes
      self.arena.length other.nodes
      ⟨(((other.arena.getD 0 default).children).map
          (fun x => x + self.arena.length)).foldl
          (fun a c => a.set c
            { a.getD c default with parent := some nodeIdx })
          ((self.arena
              ++ other.arena.map (shiftPlayer self.arena.length)).set
            nodeIdx
            { (self.arena ++ other.arena.map
                (shiftPlayer self.arena.length)).getD nodeIdx default
                with
                children := ((self.arena ++ other.arena.map
                  (shiftPlayer self.arena.length)).getD nodeIdx
                    default).children
                  ++ ((other.arena.getD 0 default).children).map
                    (fun x => x + self.arena.length) }),
        self.nodes, self.generations, [], false⟩).gens,
            branches := (other.branches.map (freshName self.nodes)).foldl
              setAdd self.branches }, .ok ()) := by
    rw [attach_unfold (fun s => s) (fun s => s) false self other nodeIdx hroot]
    simp only [c1, Bool.false_eq_true, if_false]
  have hrc_ge : ∀ c ∈ ((other.arena.getD 0 default).children).map
      (fun x => x + self.arena.length), self.arena.length ≤ c := by
    intro c hc
    obtain ⟨x, _, hxe⟩ := List.mem_map.mp hc
    omega
  have huntouched_low : ∀ j, j < self.arena.length →
      ((((other.arena.getD 0 default).children).map
          (fun x => x + self.arena.length)).foldl
          (fun a c => a.set c
            { a.getD c default with parent := some nodeIdx })
          ((self.arena
              ++ other.arena.map (shiftPlayer self.arena.length)).set
            nodeIdx
            { (self.arena ++ other.arena.map
                (shiftPlayer self.arena.length)).getD nodeIdx default
                with
                children := ((self.arena ++ other.arena.map
                  (shiftPlayer self.arena.length)).getD nodeIdx
                    default).children
                  ++ ((other.arena.getD 0 default).children).map
                    (fun x => x + self.arena.length) })).getD j default
        = ((self.arena
            ++ other.arena.map (shiftPlayer self.arena.length)).set
          nodeIdx
          { (self.arena ++ other.arena.map
              (shiftPlayer self.arena.length)).getD nodeIdx default
              with
              children := ((self.arena ++ other.arena.map
                (shiftPlayer self.arena.length)).getD nodeIdx
                  default).children
                ++ ((other.arena.getD 0 default).children).map
                  (fun x => x + self.arena.length) }).getD j default := by
    intro j hj
    apply spliceFold_untouched
    intro hjin
    have := hrc_ge j hjin
    omega
  refine ⟨?_, ?_, ?_, ?_, ?_⟩
  · rw [hattach2]
  · rw [hattach2]
    show (attachLoop (fun s => s) (fun s => s) false
      ((other.arena.getD 0 default).idStr) other.branches self.nodes
      self.arena.length other.nodes
      ⟨(((other.arena.getD 0 default).children).map
          (fun x => x + self.arena.length)).foldl
          (fun a c => a.set c
            { a.getD c default with parent := some nodeIdx })
          ((self.arena
              ++ other.arena.map (shiftPlayer self.arena.length)).set
            nodeIdx
            { (self.arena ++ other.arena.map
                (shiftPlayer self.arena.length)).getD nodeIdx default
                with
                children := ((self.arena ++ other.arena.map
                  (shiftPlayer self.arena.length)).getD nodeIdx
                    default).children
                  ++ ((other.arena.getD 0 default).children).map
                    (fun x => x + self.arena.length) }),
        self.nodes, self.generations, [], false⟩).toAdd.foldl
        (fun d e => dictSet d e.1 e.2)
        (attachLoop (fun s => s) (fun s => s) false
      ((other.arena.getD 0 default).idStr) other.branches self.nodes
      self.arena.length other.nodes
      ⟨(((other.arena.getD 0 default).children).map
          (fun x => x + self.arena.length)).foldl
          (fun a c => a.set c
            { a.getD c default with parent := some nodeIdx })
          ((self.arena
              ++ other.arena.map (shiftPlayer self.arena.length)).set
            nodeIdx
            { (self.arena ++ other.arena.map
                (shiftPlayer self.arena.length)).getD nodeIdx default
                with
                children := ((self.arena ++ other.arena.map
                  (shiftPlayer self.arena.length)).getD nodeIdx
                    default).children
                  ++ ((other.arena.getD 0 default).children).map
                    (fun x => x + self.arena.length) }),
        self.nodes, self.generations, [], false⟩).nodes = _
    rw [c2, c3, List.nil_append]
    have hfresh : ∀ e ∈ attachAddEntries self.nodes
        ((other.arena.getD 0 default).idStr) other.branches
        self.arena.length other.nodes,
        ¬(dictGet (self.nodes ++ attachNodeEntries
          ((other.arena.getD 0 default).idStr) other.branches
          self.arena.length other.nodes) e.1).isSome := by
      intro e he
      obtain ⟨a, ha, hae⟩ := List.mem_filterMap.mp he
      by_cases hc : a.1 ≠ (other.arena.getD 0 default).idStr
          ∧ a.1 ∈ other.branches
      · rw [if_pos hc] at hae
        obtain ⟨hb7a, hb7b⟩ := hB7 a ha hc.1 hc.2
        have hpair := Option.some.inj hae
        have hkey : e.1 = freshName self.nodes a.1 := by
          rw [← hpair]
        rw [hkey]
        have hnone : dictGet self.nodes (freshName self.nodes a.1) = none := by
          cases hx : dictGet self.nodes (freshName self.nodes a.1) with
          | none => rfl
          | some v => rw [hx] at hb7a; simp at hb7a
        rw [dictGet_append_none hnone]
        rw [dictGet_eq_none_of_not_mem_keys]
        · simp
        · rw [attachNodeEntries_keys]
          exact hb7b
      · rw [if_neg hc] at hae
        simp at hae
    have hnodup : ((attachAddEntries self.nodes
        ((other.arena.getD 0 default).idStr) other.branches
        self.arena.length other.nodes).map Prod.fst).Nodup := by
      rw [attachAddEntries_keys]
      exact hB4
    rw [foldl_dictSet_append _ _ hfresh hnodup]
  · intro j hj hjne
    rw [hattach2]
    show (attachLoop (fun s => s) (fun s => s) false
      ((other.arena.getD 0 default).idStr) other.branches self.nodes
      self.arena.length other.nodes
      ⟨(((other.arena.getD 0 default).children).map
          (fun x => x + self.arena.length)).foldl
          (fun a c => a.set c
            { a.getD c default with parent := some nodeIdx })
          ((self.arena
              ++ other.arena.map (shiftPlayer self.arena.length)).set
            nodeIdx
            { (self.arena ++ other.arena.map
                (shiftPlayer self.arena.length)).getD nodeIdx default
                with
                children := ((self.arena ++ other.arena.map
                  (shiftPlayer self.arena.length)).getD nodeIdx
                    default).children
                  ++ ((other.arena.getD 0 default).children).map
                    (fun x => x + self.arena.length) }),
        self.nodes, self.generations, [], false⟩).arena.getD j default = _
    rw [c5 j (by
      intro hx
      obtain ⟨v, hv, hve⟩ := List.mem_map.mp hx
      omega)]
    show ((((other.arena.getD 0 default).children).map
          (fun x => x + self.arena.length)).foldl
          (fun a c => a.set c
            { a.getD c default with parent := some nodeIdx })
          ((self.arena
              ++ other.arena.map (shiftPlayer self.arena.length)).set
            nodeIdx
            { (self.arena ++ other.arena.map
                (shiftPlayer self.arena.length)).getD nodeIdx default
                with
                children := ((self.arena ++ other.arena.map
                  (shiftPlayer self.arena.length)).getD nodeIdx
                    default).children
                  ++ ((other.arena.getD 0 default).children).map
                    (fun x => x + self.arena.length) })).getD j default = _
    rw [huntouched_low j hj, getD_set_ne _ _ _ _ hjne,
      List.getD_append _ _ _ _ hj]
  · rw [hattach2]
    show (attachLoop (fun s => s) (fun s => s) false
      ((other.arena.getD 0 default).idStr) other.branches self.nodes
      self.arena.length other.nodes
      ⟨(((other.arena.getD 0 default).children).map
          (fun x => x + self.arena.length)).foldl
          (fun a c => a.set c
            { a.getD c default with parent := some nodeIdx })
          ((self.arena
              ++ other.arena.map (shiftPlayer self.arena.length)).set
            nodeIdx
            { (self.arena ++ other.arena.map
                (shiftPlayer self.arena.length)).getD nodeIdx default
                with
                children := ((self.arena ++ other.arena.map
                  (shiftPlayer self.arena.length)).getD nodeIdx
                    default).children
                  ++ ((other.arena.getD 0 default).children).map
                    (fun x => x + self.arena.length) }),
        self.nodes, self.generations, [], false⟩).arena.getD nodeIdx default = _
    rw [c5 nodeIdx (by
      intro hx
      obtain ⟨v, hv, hve⟩ := List.mem_map.mp hx
      omega)]
    show ((((other.arena.getD 0 default).children).map
          (fun x => x + self.arena.length)).foldl
          (fun a c => a.set c
            { a.getD c default with parent := some nodeIdx })
          ((self.arena
              ++ other.arena.map (shiftPlayer self.arena.length)).set
            nodeIdx
            { (self.arena ++ other.arena.map
                (shiftPlayer self.arena.length)).getD nodeIdx default
                with
                children := ((self.arena ++ other.arena.map
                  (shiftPlayer self.arena.length)).getD nodeIdx
                    default).children
                  ++ ((other.arena.getD 0 default).children).map
                    (fun x => x + self.arena.length) })).getD nodeIdx default = _
    rw [huntouched_low nodeIdx hnlt]
    have hsetlen : nodeIdx < (self.arena
        ++ other.arena.map (shiftPlayer self.arena.length)).length := by
      rw [List.length_append]
      omega
    rw [getD_set_self _ _ _ hsetlen,
      List.getD_append _ _ _ _ hnlt]
  · intro e he ha hb
    rw [hattach2]
    have hvmem : e.2 ∈ nodeVals ((other.arena.getD 0 default).idStr)
        other.branches other.nodes := by
      simp only [nodeVals, List.mem_filterMap]
      refine ⟨e, he, ?_⟩
      rw [if_neg]
      push_neg
      exact ⟨ha, hb⟩
    have helt : e.2 < other.arena.length := hB6 e.2 hvmem
    have hge : self.arena.length ≤ e.2 + self.arena.length := by omega
    have hp6 := c6 e he ha hb
    have hBfields := spliceFold_fields nodeIdx
      (((other.arena.getD 0 default).children).map
        (fun x => x + self.arena.length))
      ((self.arena
          ++ other.arena.map (shiftPlayer self.arena.length)).set
        nodeIdx
        { (self.arena ++ other.arena.map
            (shiftPlayer self.arena.length)).getD nodeIdx default
            with
            children := ((self.arena ++ other.arena.map
              (shiftPlayer self.arena.length)).getD nodeIdx
                default).children
              ++ ((other.arena.getD 0 default).children).map
                (fun x => x + self.arena.length) })
      (e.2 + self.arena.length)
    have hne_node : e.2 + self.arena.length ≠ nodeIdx := by omega
    have hgetA : ((self.arena
        ++ other.arena.map (shiftPlayer self.arena.length)).set
          nodeIdx
          { (self.arena ++ other.arena.map
              (shiftPlayer self.arena.length)).getD nodeIdx default
              with
              children := ((self.arena ++ other.arena.map
                (shiftPlayer self.arena.length)).getD nodeIdx
                  default).children
                ++ ((other.arena.getD 0 default).children).map
                  (fun x => x + self.arena.length) }).getD
          (e.2 + self.arena.length) default
        = shiftPlayer self.arena.length (other.arena.getD e.2 default) := by
      rw [getD_set_ne _ _ _ _ hne_node,
        List.getD_append_right _ _ _ _ hge]
      have hsub : e.2 + self.arena.length - self.arena.length = e.2 := by
        omega
      rw [hsub]
      exact getD_map_shift _ _ _ helt
    obtain ⟨f1, f2, f3, f4⟩ := hBfields
    refine ⟨?_, ?_, ?_⟩
    · show ((attachLoop (fun s => s) (fun s => s) false
      ((other.arena.getD 0 default).idStr) other.branches self.nodes
      self.arena.length other.nodes
      ⟨(((other.arena.getD 0 default).children).map
          (fun x => x + self.arena.length)).foldl
          (fun a c => a.set c
            { a.getD c default with parent := some nodeIdx })
          ((self.arena
              ++ other.arena.map (shiftPlayer self.arena.length)).set
            nodeIdx
            { (self.arena ++ other.arena.map
                (shiftPlayer self.arena.length)).getD nodeIdx default
                with
                children := ((self.arena ++ other.arena.map
                  (shiftPlayer self.arena.length)).getD nodeIdx
                    default).children
                  ++ ((other.arena.getD 0 default).children).map
                    (fun x => x + self.arena.length) }),
        self.nodes, self.generations, [], false⟩).arena.getD
          (e.2 + self.arena.length) default).idStr = e.1
      rw [hp6]
    · show ((attachLoop (fun s => s) (fun s => s) false
      ((other.arena.getD 0 default).idStr) other.branches self.nodes
      self.arena.length other.nodes
      ⟨(((other.arena.getD 0 default).children).map
          (fun x => x + self.arena.length)).foldl
          (fun a c => a.set c
            { a.getD c default with parent := some nodeIdx })
          ((self.arena
              ++ other.arena.map (shiftPlayer self.arena.length)).set
            nodeIdx
            { (self.arena ++ other.arena.map
                (shiftPlayer self.arena.length)).getD nodeIdx default
                with
                children := ((self.arena ++ other.arena.map
                  (shiftPlayer self.arena.length)).getD nodeIdx
                    default).children
                  ++ ((other.arena.getD 0 default).children).map
                    (fun x => x + self.arena.length) }),
        self.nodes, self.generations, [], false⟩).arena.getD
          (e.2 + self.arena.length) default).generation = _
      rw [hp6]
      show (((((other.arena.getD 0 default).children).map
          (fun x => x + self.arena.length)).foldl
          (fun a c => a.set c
            { a.getD c default with parent := some nodeIdx })
          ((self.arena
              ++ other.arena.map (shiftPlayer self.arena.length)).set
            nodeIdx
            { (self.arena ++ other.arena.map
                (shiftPlayer self.arena.length)).getD nodeIdx default
                with
                children := ((self.arena ++ other.arena.map
                  (shiftPlayer self.arena.length)).getD nodeIdx
                    default).children
                  ++ ((other.arena.getD 0 default).children).map
                    (fun x => x + self.arena.length) })).getD
          (e.2 + self.arena.length) default).generation = _
      rw [f2, hgetA]
      rfl
    · show ((attachLoop (fun s => s) (fun s => s) false
      ((other.arena.getD 0 default).idStr) other.branches self.nodes
      self.arena.length other.nodes
      ⟨(((other.arena.getD 0 default).children).map
          (fun x => x + self.arena.length)).foldl
          (fun a c => a.set c
            { a.getD c default with parent := some nodeIdx })
          ((self.arena
              ++ other.arena.map (shiftPlayer self.arena.length)).set
            nodeIdx
            { (self.arena ++ other.arena.map
                (shiftPlayer self.arena.length)).getD nodeIdx default
                with
                children := ((self.arena ++ other.arena.map
                  (shiftPlayer self.arena.length)).getD nodeIdx
                    default).children
                  ++ ((other.arena.getD 0 default).children).map
                    (fun x => x + self.arena.length) }),
        self.nodes, self.generations, [], false⟩).arena.getD
          (e.2 + self.arena.length) default).branchName = _
      rw [hp6]
      show renameBranch self.nodes other.branches
          (((((other.arena.getD 0 default).children).map
          (fun x => x + self.arena.length)).foldl
          (fun a c => a.set c
            { a.getD c default with parent := some nodeIdx })
          ((self.arena
              ++ other.arena.map (shiftPlayer self.arena.length)).set
            nodeIdx
            { (self.arena ++ other.arena.map
                (shiftPlayer self.arena.length)).getD nodeIdx default
                with
                children := ((self.arena ++ other.arena.map
                  (shiftPlayer self.arena.length)).getD nodeIdx
                    default).children
                  ++ ((other.arena.getD 0 default).children).map
                    (fun x => x + self.arena.length) })).getD
            (e.2 + self.arena.length) default).branchName = _
      rw [f3, hgetA]
      rfl

theorem list_toFinset_map (l : List Nat) (f : Nat → Nat) :
    (l.map f).toFinset = Finset.image f l.toFinset := by
  ext x
  simp

theorem dict_entry_unique {d : List (String × Nat)}
    (hnodup : (d.map Prod.fst).Nodup) {k : String} {v1 v2 : Nat}
    (h1 : (k, v1) ∈ d) (h2 : (k, v2) ∈ d) : v1 = v2 := by
  induction d with
  | nil => simp at h1
  | cons f fs ih =>
    rw [List.map_cons, List.nodup_cons] at hnodup
    rcases List.mem_cons.mp h1 with he1 | hm1
    · rcases List.mem_cons.mp h2 with he2 | hm2
      · rw [← he1] at he2
        exact (Prod.ext_iff.mp he2).2.symm
      · exfalso
        apply hnodup.1
        have hk : f.1 = k := by rw [← he1]
        rw [hk]
        simp only [List.mem_map]
        exact ⟨(k, v2), hm2, rfl⟩
    · rcases List.mem_cons.mp h2 with he2 | hm2
      · exfalso
        apply hnodup.1
        have hk : f.1 = k := by rw [← he2]
        rw [hk]
        simp only [List.mem_map]
        exact ⟨(k, v1), hm1, rfl⟩
      · exact ih hnodup.2 hm1 hm2

theorem attachNodeEntries_vals (rootId : String) (obranches : List String)
    (off : Nat) (entries : List (String × Nat)) :
    (attachNodeEntries rootId obranches off entries).map Prod.snd
      = (nodeVals rootId obranches entries).map (fun v => v + off) := by
  induction entries with
  | nil => rfl
  | cons e rest ih =>
    by_cases hc : e.1 = rootId ∨ e.1 ∈ obranches
    · simp only [attachNodeEntries, nodeVals, List.filterMap_cons, if_pos hc]
      exact ih
    · simp only [attachNodeEntries, nodeVals, List.filterMap_cons,
        if_neg hc, List.map_cons]
      exact congrArg (fun l => (e.2 + off) :: l) ih

theorem attachAddEntries_vals (selfNodes : List (String × Nat))
    (rootId : String) (obranches : List String) (off : Nat)
    (entries : List (String × Nat)) (x : Nat)
    (hx : x ∈ (attachAddEntries selfNodes rootId obranches off entries).map
      Prod.snd) :
    ∃ e ∈ entries, e.1 ≠ rootId ∧ e.1 ∈ obranches ∧ x = e.2 + off := by
  obtain ⟨p, hp, hpe⟩ := List.mem_map.mp hx
  obtain ⟨a, ha, hae⟩ := List.mem_filterMap.mp hp
  by_cases hc : a.1 ≠ rootId ∧ a.1 ∈ obranches
  · rw [if_pos hc] at hae
    refine ⟨a, ha, hc.1, hc.2, ?_⟩
    have := Option.some.inj hae
    rw [← hpe, ← this]
  · rw [if_neg hc] at hae
    simp at hae

theorem mem_nodeVals (rootId : String) (obranches : List String)
    (entries : List (String × Nat)) (e : String × Nat) (he : e ∈ entries)
    (ha : e.1 ≠ rootId) (hb : e.1 ∉ obranches) :
    e.2 ∈ nodeVals rootId obranches entries := by
  simp only [nodeVals, List.mem_filterMap]
  refine ⟨e, he, ?_⟩
  rw [if_neg]
  push_neg
  exact ⟨ha, hb⟩

/-- C5, amended.  In a hook-free attach satisfying the `AttachOK` side
conditions, every non-root, non-branch node taken from `other` is
inserted into the receiving index under its own id with its branch
label rewritten through the branch rename mapping and its depth
(generation) left UNCHANGED - it is not re-based by the depth of the
splice-point node. -/
theorem attach_rewrites_label_keeps_depth (self other : Pop) (nodeIdx : Nat)
    (hok : AttachOK self other nodeIdx) :
    (Pop.attach (fun s => s) (fun s => s) false self other).2 = .ok () ∧
    ∀ e ∈ other.nodes, e.1 ≠ (other.arena.getD 0 default).idStr →
      e.1 ∉ other.branches →
      ((e.1, e.2 + self.arena.length)
          ∈ (Pop.attach (fun s => s) (fun s => s) false self
            other).1.nodes ∧
        ((Pop.attach (fun s => s) (fun s => s) false self
            other).1.arena.getD (e.2 + self.arena.length) default).idStr
          = e.1 ∧
        ((Pop.attach (fun s => s) (fun s => s) false self
            other).1.arena.getD (e.2 + self.arena.length)
              default).generation
          = (other.arena.getD e.2 default).generation ∧
        ((Pop.attach (fun s => s) (fun s => s) false self
            other).1.arena.getD (e.2 + self.arena.length)
              default).branchName
          = renameBranch self.nodes other.branches
              (other.arena.getD e.2 default).branchName) := by
  obtain ⟨a1, a2, a3, a4, a5⟩ := attach_plain_spec self other nodeIdx hok
  refine ⟨a1, ?_⟩
  intro e he ha hb
  obtain ⟨p1, p2, p3⟩ := a5 e he ha hb
  refine ⟨?_, p1, p2, p3⟩
  rw [a2]
  rw [List.append_assoc]
  apply List.mem_append_right
  apply List.mem_append_left
  simp only [attachNodeEntries, List.mem_filterMap]
  refine ⟨e, he, ?_⟩
  rw [if_neg]
  push_neg
  exact ⟨ha, hb⟩

theorem attach_rewrites_label_keeps_depth_witness :
    AttachOK selfB otherB 1 ∧
    ((Pop.attach (fun s => s) (fun s => s) false selfB otherB).2
        = .ok () ∧
      (("c", 1) ∈ otherB.nodes ∧
        "c" ≠ (otherB.arena.getD 0 default).idStr ∧
        "c" ∉ otherB.branches) ∧
      (("c", 1 + selfB.arena.length)
          ∈ (Pop.attach (fun s => s) (fun s => s) false selfB
            otherB).1.nodes ∧
        ((Pop.attach (fun s => s) (fun s => s) false selfB
            otherB).1.arena.getD (1 + selfB.arena.length) default).idStr
          = "c" ∧
        ((Pop.attach (fun s => s) (fun s => s) false selfB
            otherB).1.arena.getD (1 + selfB.arena.length)
              default).generation
          = (otherB.arena.getD 1 default).generation ∧
        ((Pop.attach (fun s => s) (fun s => s) false selfB
            otherB).1.arena.getD (1 + selfB.arena.length)
              default).branchName
          = renameBranch selfB.nodes otherB.branches
              (otherB.arena.getD 1 default).branchName)) :=
  ⟨by decide,
    (attach_rewrites_label_keeps_depth selfB otherB 1 (by decide)).1,
    ⟨by decide, by decide, by decide⟩,
    (attach_rewrites_label_keeps_depth selfB otherB 1 (by decide)).2
      ("c", 1) (by decide) (by decide) (by decide)⟩

/-- C4, amended.  A hook-free attach satisfying the `AttachOK` side
conditions, into a well-formed receiver, from a detached graph whose
root is still indexed at its root key, is aliased by no other entry,
and whose branch aliases all cover node-indexed players: the attach
succeeds, the receiving index afterwards refers to exactly
`N + M - 1` distinct players, every pre-attach entry is still present,
and every pre-existing player is unchanged except the splice node,
whose children list gains the re-parented incoming children. -/
theorem attach_append_only_counted (self other : Pop) (nodeIdx : Nat)
    (hok : AttachOK self other nodeIdx)
    (hvalsSelf : ∀ e ∈ self.nodes, e.2 < self.arena.length)
    (hknodup : (other.nodes.map Prod.fst).Nodup)
    (hrootIn : (((other.arena.getD 0 default).idStr), 0) ∈ other.nodes)
    (hroot0 : ∀ e ∈ other.nodes, e.2 = 0 →
      e.1 = (other.arena.getD 0 default).idStr)
    (hcover : ∀ e ∈ other.nodes, e.1 ≠ (other.arena.getD 0 default).idStr →
      e.1 ∈ other.branches →
      ∃ e2 ∈ other.nodes, e2.1 ≠ (other.arena.getD 0 default).idStr ∧
        e2.1 ∉ other.branches ∧ e2.2 = e.2) :
    (Pop.attach (fun s => s) (fun s => s) false self other).2 = .ok () ∧
    playerCount (Pop.attach (fun s => s) (fun s => s) false self other).1
      = playerCount self + playerCount other - 1 ∧
    (∀ e ∈ self.nodes,
      e ∈ (Pop.attach (fun s => s) (fun s => s) false self other).1.nodes) ∧
    (∀ j, j < self.arena.length → j ≠ nodeIdx →
      (Pop.attach (fun s => s) (fun s => s) false self other).1.arena.getD j
          default
        = self.arena.getD j default) ∧
    ((Pop.attach (fun s => s) (fun s => s) false self other).1.arena.getD
        nodeIdx default
      = { self.arena.getD nodeIdx default with
            children := (self.arena.getD nodeIdx default).children
              ++ ((other.arena.getD 0 default).children).map
                (fun x => x + self.arena.length) }) := by
  obtain ⟨a1, a2, a3, a4, a5⟩ := attach_plain_spec self other nodeIdx hok
  refine ⟨a1, ?_, ?_, a3, a4⟩
  · have hinj : Function.Injective (fun v : Nat => v + self.arena.length) :=
      fun a b hab => Nat.add_right_cancel hab
    have hPF : playersFinset
        (Pop.attach (fun s => s) (fun s => s) false self other).1
        = playersFinset self
          ∪ (((attachNodeEntries ((other.arena.getD 0 default).idStr)
              other.branches self.arena.length other.nodes).map
                Prod.snd).toFinset
            ∪ ((attachAddEntries self.nodes
                ((other.arena.getD 0 default).idStr) other.branches
                self.arena.length other.nodes).map Prod.snd).toFinset) := by
      show ((Pop.attach (fun s => s) (fun s => s) false self
          other).1.nodes.map Prod.snd).toFinset = _
      rw [a2, List.append_assoc, List.map_append, List.toFinset_append,
        List.map_append, List.toFinset_append]
      rfl
    have hsub : ((attachAddEntries self.nodes
        ((other.arena.getD 0 default).idStr) other.branches
        self.arena.length other.nodes).map Prod.snd).toFinset
        ⊆ ((attachNodeEntries ((other.arena.getD 0 default).idStr)
          other.branches self.arena.length other.nodes).map
            Prod.snd).toFinset := by
      intro x hx
      rw [List.mem_toFinset] at hx ⊢
      obtain ⟨e, he, ha, hb, hxe⟩ := attachAddEntries_vals self.nodes
        ((other.arena.getD 0 default).idStr) other.branches
        self.arena.length other.nodes x hx
      obtain ⟨e2, he2, h2a, h2b, h2v⟩ := hcover e he ha hb
      rw [attachNodeEntries_vals, List.mem_map]
      refine ⟨e2.2, mem_nodeVals _ _ _ e2 he2 h2a h2b, by omega⟩
    have hunion : ((attachNodeEntries ((other.arena.getD 0 default).idStr)
        other.branches self.arena.length other.nodes).map
          Prod.snd).toFinset
        ∪ ((attachAddEntries self.nodes
          ((other.arena.getD 0 default).idStr) other.branches
          self.arena.length other.nodes).map Prod.snd).toFinset
        = ((attachNodeEntries ((other.arena.getD 0 default).idStr)
          other.branches self.arena.length other.nodes).map
            Prod.snd).toFinset :=
      (Finset.left_eq_union.mpr hsub).symm
    have hdisj : Disjoint (playersFinset self)
        (((attachNodeEntries ((other.arena.getD 0 default).idStr)
          other.branches self.arena.length other.nodes).map
            Prod.snd).toFinset) := by
      rw [Finset.disjoint_left]
      intro x hx hx2
      rw [show playersFinset self = (self.nodes.map Prod.snd).toFinset
          from rfl, List.mem_toFinset, List.mem_map] at hx
      obtain ⟨e, he, hev⟩ := hx
      have hxlt : x < self.arena.length := by
        have := hvalsSelf e he
        omega
      rw [List.mem_toFinset, attachNodeEntries_vals, List.mem_map] at hx2
      obtain ⟨v, _, hveq⟩ := hx2
      omega
    have hcardNE : ((attachNodeEntries ((other.arena.getD 0 default).idStr)
        other.branches self.arena.length other.nodes).map
          Prod.snd).toFinset.card
        = (nodeVals ((other.arena.getD 0 default).idStr) other.branches
            other.nodes).toFinset.card := by
      rw [attachNodeEntries_vals, list_toFinset_map,
        Finset.card_image_of_injective _ hinj]
    have hother : (other.nodes.map Prod.snd).toFinset
        = insert 0 (nodeVals ((other.arena.getD 0 default).idStr)
            other.branches other.nodes).toFinset := by
      ext x
      rw [List.mem_toFinset, List.mem_map, Finset.mem_insert,
        List.mem_toFinset]
      constructor
      · rintro ⟨e, he, hev⟩
        by_cases hx0 : x = 0
        · exact Or.inl hx0
        · right
          by_cases ha : e.1 = (other.arena.getD 0 default).idStr
          · exfalso
            have hax : ((other.arena.getD 0 default).idStr, x) ∈ other.nodes := by
              have : e = ((other.arena.getD 0 default).idStr, x) := by
                rw [Prod.ext_iff]
                exact ⟨ha, hev⟩
              rw [← this]
              exact he
            have := dict_entry_unique hknodup hrootIn hax
            omega
          · by_cases hbx : e.1 ∈ other.branches
            · obtain ⟨e2, he2, h2a, h2b, h2v⟩ := hcover e he ha hbx
              have := mem_nodeVals ((other.arena.getD 0 default).idStr)
                other.branches other.nodes e2 he2 h2a h2b
              rw [h2v, hev] at this
              exact this
            · have := mem_nodeVals ((other.arena.getD 0 default).idStr)
                other.branches other.nodes e he ha hbx
              rw [hev] at this
              exact this
      · rintro (rfl | hxv)
        · exact ⟨(((other.arena.getD 0 default).idStr), 0), hrootIn, rfl⟩
        · simp only [nodeVals, List.mem_filterMap] at hxv
          obtain ⟨e, he, hee⟩ := hxv
          by_cases hc : e.1 = (other.arena.getD 0 default).idStr
              ∨ e.1 ∈ other.branches
          · rw [if_pos hc] at hee
            simp at hee
          · rw [if_neg hc] at hee
            exact ⟨e, he, Option.some.inj hee⟩
    have h0notin : 0 ∉ (nodeVals ((other.arena.getD 0 default).idStr)
        other.branches other.nodes).toFinset := by
      rw [List.mem_toFinset]
      intro h0
      simp only [nodeVals, List.mem_filterMap] at h0
      obtain ⟨e, he, hee⟩ := h0
      by_cases hc : e.1 = (other.arena.getD 0 default).idStr
          ∨ e.1 ∈ other.branches
      · rw [if_pos hc] at hee
        simp at hee
      · rw [if_neg hc] at hee
        have he0 : e.2 = 0 := Option.some.inj hee
        push_neg at hc
        exact hc.1 (hroot0 e he he0)
    show (playersFinset
        (Pop.attach (fun s => s) (fun s => s) false self other).1).card = _
    rw [hPF, hunion, Finset.card_union_of_disjoint hdisj, hcardNE]
    show _ = (playersFinset self).card
      + ((other.nodes.map Prod.snd).toFinset).card - 1
    rw [hother, Finset.card_insert_of_not_mem h0notin]
    omega
  · intro e he
    rw [a2]
    exact List.mem_append_left _ (List.mem_append_left _ he)

/-- Witness for the amended C4 theorem: attaching the detached graph
grown on its own fresh branch onto the tip of a one-commit population
succeeds, and the number of distinct indexed players afterwards is
1 + 2 - 1 = 2. -/
theorem attach_append_only_counted_witness :
    AttachOK selfB otherC 1 ∧
    (Pop.attach (fun s => s) (fun s => s) false selfB otherC).2 = .ok () ∧
    playerCount (Pop.attach (fun s => s) (fun s => s) false selfB otherC).1
      = playerCount selfB + playerCount otherC - 1 := by
  have h := attach_append_only_counted selfB otherC 1 (by decide) (by decide)
    (by decide) (by decide) (by decide) (by decide)
  exact ⟨by decide, h.1, h.2.1⟩

end Popcore
